import Mathlib

/-!
Verification of the rankings-core Swiss engine and helpers.
-/

namespace RankingsCore

/-- Result codes, from `src/standings/types.ts` (`MatchResult`). -/
inductive MatchResult where
  | W | L | D | BYE | FORFEIT_W | FORFEIT_L
deriving DecidableEq, Repr

abbrev PlayerID := String

/-- One reported match record, from `src/standings/types.ts` (`Match`).
JS numbers are modelled as `Int` for rounds/tallies (they are validated as
integers) and `ℚ` where finite reals can occur. -/
structure Match where
  id : String
  round : Int
  playerId : PlayerID
  opponentId : Option PlayerID
  result : MatchResult
  gameWins : Option Int := none
  gameLosses : Option Int := none
  gameDraws : Option Int := none
  opponentGameWins : Option Int := none
  opponentGameLosses : Option Int := none
  opponentGameDraws : Option Int := none
  penalties : Option Int := none
deriving DecidableEq, Repr

/-- A standings row, from `src/standings/types.ts` (`StandingRow`).
The optional `retired?: boolean` is modelled as a `Bool` (absent = false,
which is how the code's `!s.retired` test treats it). -/
structure StandingRow where
  rank : Int
  playerId : PlayerID
  matchPoints : ℚ
  mwp : ℚ := 0
  omwp : ℚ := 0
  gwp : ℚ := 0
  ogwp : ℚ := 0
  sb : ℚ := 0
  wins : Int := 0
  losses : Int := 0
  draws : Int := 0
  byes : Int := 0
  roundsPlayed : Int := 0
  gameWins : Int := 0
  gameLosses : Int := 0
  gameDraws : Int := 0
  penalties : Int := 0
  opponents : List PlayerID := []
  retired : Bool := false
deriving DecidableEq, Repr

/-- UTF-16 code units of a string, as `charCodeAt` sees them. -/
def utf16Units (s : String) : List Nat :=
  s.data.flatMap fun c =>
    if c.toNat < 0x10000 then [c.toNat]
    else [0xD800 + (c.toNat - 0x10000) / 0x400, 0xDC00 + (c.toNat - 0x10000) % 0x400]

/-- FNV-1a style hash from `fnv1a` in the Swiss pairings module.  The JS body
`h = (h + ((h<<1)+(h<<4)+(h<<7)+(h<<8)+(h<<24))) >>> 0` equals, modulo 2^32,
multiplication of `h ^ c` by 16777619 (= 1+2+16+128+256+2^24). -/
def fnv1a (s : String) : Nat :=
  (utf16Units s).foldl (fun h c => ((h ^^^ c) * 16777619) % 2 ^ 32) 0x811c9dc5

/-- A stable sort by a JS comparator (negative result means the first argument
sorts first).  JS `Array.prototype.sort` is required to be stable; insertion
sort with `cmp x y ≤ 0` is the stable sort for a consistent comparator. -/
def jsSort (cmp : α → α → Int) (l : List α) : List α :=
  List.insertionSort (fun x y => cmp x y ≤ 0) l

/-- `String.prototype.trim`: strip leading and trailing whitespace.  Written
over the character list so that it evaluates in the kernel; on ASCII input it
agrees with the JS whitespace set. -/
def jsTrim (s : String) : String :=
  ⟨((s.data.dropWhile Char.isWhitespace).reverse.dropWhile Char.isWhitespace).reverse⟩

/-- Insertion-ordered set-of-list, as `new Set(xs)` iterates (keeps the first
occurrence of each element). -/
def jsSetOfList [DecidableEq α] (xs : List α) : List α :=
  xs.foldl (fun acc x => if x ∈ acc then acc else acc ++ [x]) []

/-- Last index at which `p` occurs in `xs` (JS `forEach` object assignment:
later assignments win), `none` if absent. -/
def lastIdxOf (xs : List PlayerID) (p : PlayerID) : Option Nat :=
  xs.enum.foldl (fun acc iq => if iq.2 = p then some iq.1 else acc) none

-- ===================== Swiss pairing generator =====================
-- Embedding of `generateSwissPairings` (Swiss pairings module).

/-- A pairing `{a, b}`. -/
structure Pairing where
  a : PlayerID
  b : PlayerID
deriving DecidableEq, Repr

/-- `RetirementMode` from `src/standings/types.ts`. -/
inductive RetirementMode where
  | withdraw | forfeit
deriving DecidableEq, Repr

/-- `SwissPairingOptions` with the defaults destructured at the top of
`generateSwissPairings`. -/
structure SwissPairingOptions where
  eventId : String := "rankings-core"
  avoidRematches : Bool := true
  protectTopN : Int := 0
  preferGroupIntegrity : Bool := true
  byePoints : ℚ := 3
  maxBacktrack : Int := 2000
  retirementMode : RetirementMode := .withdraw

/-- `SwissPairingResult`; `downfloats` is the counts record as a total map
(absent keys read as the record's default lookups do). -/
structure SwissPairingResult where
  pairings : List Pairing
  bye : Option PlayerID
  downfloats : PlayerID → Int
  rematchesUsed : List Pairing

/-- `playedWith` built from history (`pw(a).add(b); pw(b).add(a)` for every
non-bye record), as a symmetric membership predicate. -/
def addPlayed (pw : PlayerID → PlayerID → Bool) (a b : PlayerID) :
    PlayerID → PlayerID → Bool :=
  fun x y => (x = a ∧ y = b : Bool) || pw x y

def buildPlayedWith (history : List Match) : PlayerID → PlayerID → Bool :=
  history.foldl
    (fun pw m =>
      match m.opponentId with
      | none => pw
      | some b => addPlayed (addPlayed pw m.playerId b) b m.playerId)
    (fun _ _ => false)

/-- `byesTaken`: players having a history record with `opponentId === null`. -/
def buildByesTaken (history : List Match) : PlayerID → Bool :=
  history.foldl
    (fun bt m =>
      match m.opponentId with
      | none => fun x => (x = m.playerId : Bool) || bt x
      | some _ => bt)
    (fun _ => false)

/-- `seedKey(id) = fnv1a(`${eventId}::pairing::${id}`)`. -/
def seedKey (eventId : String) (id : PlayerID) : Nat :=
  fnv1a (eventId ++ "::pairing::" ++ id)

/-- Candidate ranking comparator inside the DFS: adjacency in the bag, then
fewer downfloats, then seed (`candidates.sort` in `pairBag`). -/
def cmpCandidates (ids : List PlayerID) (startIdx : Nat) (dfc : PlayerID → Int)
    (sk : PlayerID → Nat) (x y : PlayerID) : Int :=
  let dx := ((ids.indexOf x : Int) - startIdx).natAbs
  let dy := ((ids.indexOf y : Int) - startIdx).natAbs
  if dx ≠ dy then (dx : Int) - dy
  else
    let dfx := dfc x
    let dfy := dfc y
    if dfx ≠ dfy then dfx - dfy
    else (sk x : Int) - sk y

/-- Environment of one `run` inside `pairBag`. -/
structure DfsEnv where
  ids : List PlayerID
  allow : Bool
  maxBacktrack : Int
  pw : PlayerID → PlayerID → Bool
  dfc : PlayerID → Int
  sk : PlayerID → Nat

/-- The candidate loop of `dfs`: try each candidate `b` in order, recursing via
`next`; on failure restore `used`/`chosen` (functionally: pass the originals on)
and keep the advanced step counter. -/
def tryCands (next : Nat → List PlayerID → List Pairing →
      Option (List PlayerID × List Pairing) × Nat)
    (a : PlayerID) (used : List PlayerID) (chosen : List Pairing) :
    List PlayerID → Nat → Option (List PlayerID × List Pairing) × Nat
  | [], s => (none, s)
  | b :: rest, s =>
    match next s (used ++ [a, b]) (chosen ++ [⟨a, b⟩]) with
    | (some r, s') => (some r, s')
    | (none, s') => tryCands next a used chosen rest s'

/-- `dfs(startIdx)` from `pairBag`, with the shared mutable `steps` counter and
the with-undo `used`/`chosen` sets made explicit.  `rem` is `ids.length -
startIdx`; callers keep it in sync so `rem = 0` is exactly the
`startIdx >= ids.length` exit.  On success the final `used`/`chosen` are
returned; on failure the caller's are unchanged (the TS code undoes its
mutations), and only the step counter survives. -/
def dfsGo (env : DfsEnv) :
    Nat → Nat → Nat → List PlayerID → List Pairing →
      Option (List PlayerID × List Pairing) × Nat
  | 0, _, steps, used, chosen =>
    let s := steps + 1
    if (s : Int) > env.maxBacktrack then (none, s) else (some (used, chosen), s)
  | rem + 1, startIdx, steps, used, chosen =>
    let s := steps + 1
    if (s : Int) > env.maxBacktrack then (none, s)
    else
      match env.ids[startIdx]? with
      | none => (some (used, chosen), s)
      | some a =>
        if a ∈ used then dfsGo env rem (startIdx + 1) s used chosen
        else
          let avail := (env.ids.drop (startIdx + 1)).filter (· ∉ used)
          let clean := avail.filter (fun b => !env.pw a b)
          let dirty := avail.filter (fun b => env.pw a b)
          if ¬ env.allow ∧ clean = [] then (none, s)
          else
            let cands0 := if clean ≠ [] then clean
                          else if env.allow then dirty else []
            let cands := jsSort (cmpCandidates env.ids startIdx env.dfc env.sk) cands0
            tryCands (fun s' u c => dfsGo env rem (startIdx + 1) s' u c)
              a used chosen cands s

/-- Result of one `run`/`pairBag` call. -/
structure BagResult where
  ok : Bool
  chosen : List Pairing
  leftovers : List PlayerID
deriving DecidableEq, Repr

/-- One `run(allowRematches)` inside `pairBag`. -/
def runPass (ids : List PlayerID) (allow : Bool) (maxB : Int)
    (pw : PlayerID → PlayerID → Bool) (dfc : PlayerID → Int)
    (sk : PlayerID → Nat) : BagResult :=
  match dfsGo ⟨ids, allow, maxB, pw, dfc, sk⟩ ids.length 0 0 [] [] with
  | (some (used, chosen), _) => ⟨true, chosen, ids.filter (· ∉ used)⟩
  | (none, _) => ⟨false, [], ids⟩

/-- `pairBag`: strict no-rematch pass first; fall back to the pass allowing
rematches unless the strict pass paired the whole bag. -/
def pairBag (ids : List PlayerID) (maxB : Int)
    (pw : PlayerID → PlayerID → Bool) (dfc : PlayerID → Int)
    (sk : PlayerID → Nat) : BagResult :=
  let strict := runPass ids false maxB pw dfc sk
  if strict.ok ∧ strict.leftovers = [] then strict
  else runPass ids true maxB pw dfc sk

/-- One score group of the mutable `work` array: its match-point key (`none`
models the `Number.NEGATIVE_INFINITY` terminal group) and its id list. -/
structure WorkGroup where
  mp : Option ℚ
  ids : List PlayerID
deriving Repr

/-- The mutable state threaded through the group loop. -/
structure SwissState where
  unpaired : List PlayerID
  pairings : List Pairing
  rematchesUsed : List Pairing
  dfc : PlayerID → Int
  pw : PlayerID → PlayerID → Bool

/-- `downfloat(groupIdx, pid)`: push `pid` onto the next group's ids, creating
a terminal `-Infinity` group when there is none.  `pending` is the tail of
`work` past the group being processed. -/
def pushDownfloat (pending : List WorkGroup) (p : PlayerID) : List WorkGroup :=
  match pending with
  | [] => [⟨none, [p]⟩]
  | g :: gs => ⟨g.mp, g.ids ++ [p]⟩ :: gs

/-- Increment one player's downfloat counter. -/
def bumpDfc (dfc : PlayerID → Int) (p : PlayerID) : PlayerID → Int :=
  fun q => if q = p then dfc p + 1 else dfc q

/-- Commit a list of chosen pairings: append to `pairings`, remove both members
from `unpaired`, record the pair in `rematchesUsed` when the two players had
already met, then mark them as having met. -/
def commitChosen (chosen : List Pairing) (st : SwissState) : SwissState :=
  chosen.foldl
    (fun st p =>
      { st with
        pairings := st.pairings ++ [p]
        unpaired := (st.unpaired.erase p.a).erase p.b
        rematchesUsed :=
          if st.pw p.a p.b then st.rematchesUsed ++ [p] else st.rematchesUsed
        pw := addPlayed (addPlayed st.pw p.a p.b) p.b p.a })
    st

/-- The `while (result.leftovers.length > 0)` downfloat loop inside the group
loop.  Each iteration removes the picked player from the local bag, so the
iteration count is bounded by `ids.length`; `fuel` is instantiated with
`ids.length + 1` by the caller and never runs out. -/
def downfloatLoop (protectTopN : Int) (sIdx : PlayerID → Int) (maxB : Int)
    (pw : PlayerID → PlayerID → Bool) (sk : PlayerID → Nat) :
    Nat → List PlayerID → BagResult → List WorkGroup → (PlayerID → Int) →
      BagResult × List WorkGroup × (PlayerID → Int)
  | 0, _, result, pending, dfc => (result, pending, dfc)
  | fuel + 1, ids, result, pending, dfc =>
    if result.leftovers = [] then (result, pending, dfc)
    else
      let viable := result.leftovers.filter fun id =>
        if protectTopN > 0 then sIdx id ≥ protectTopN else true
      match viable.getLast?.orElse (fun _ => result.leftovers.getLast?) with
      | none => (result, pending, dfc)
      | some pick =>
        let ids' := ids.filter (· ≠ pick)
        let pending' := pushDownfloat pending pick
        let dfc' := bumpDfc dfc pick
        let result' := pairBag ids' maxB pw dfc' sk
        if result'.ok ∧ result'.leftovers = [] then (result', pending', dfc')
        else if viable = [] then (result', pending', dfc')
        else downfloatLoop protectTopN sIdx maxB pw sk fuel ids' result' pending' dfc'

/-- The `for (gi...)` loop over score groups, in queue form: the TS code walks
an index over the growing `work` array and `downfloat` only ever touches the
entry after the current one (or appends a terminal group), so the loop is
processing the head of the not-yet-visited suffix.  Because downfloats can
append new terminal groups the queue can grow, and the TS loop need not
terminate; `fuel` bounds the number of group iterations, `none` meaning the
fuel ran out before the loop finished. -/
def groupLoop (protectTopN : Int) (sIdx : PlayerID → Int) (maxB : Int)
    (sk : PlayerID → Nat) :
    Nat → List WorkGroup → SwissState → Option SwissState
  | 0, _, _ => none
  | _ + 1, [], st => some st
  | fuel + 1, g :: pending, st =>
    let ids0 := g.ids.filter (· ∈ st.unpaired)
    if ids0 = [] then groupLoop protectTopN sIdx maxB sk fuel pending st
    else
      let result0 := pairBag ids0 maxB st.pw st.dfc sk
      let (result, pending', dfc') :=
        downfloatLoop protectTopN sIdx maxB st.pw sk
          (ids0.length + 1) ids0 result0 pending st.dfc
      let st' := commitChosen result.chosen { st with dfc := dfc' }
      groupLoop protectTopN sIdx maxB sk fuel pending' st'

/-- The greedy leftover pass: repeatedly take the first remaining id, pair it
with the first remaining partner that is not a rematch (falling back to the
very first when all are rematches), and commit.  Each iteration removes two
ids, so `fuel = ids.length` suffices. -/
def greedyLoop (avoidRematches : Bool) :
    Nat → List PlayerID → SwissState → SwissState
  | 0, _, st => st
  | fuel + 1, a :: b0 :: tl, st =>
    let rest := b0 :: tl
    let bIdx := (rest.findIdx? fun b => ¬ (avoidRematches ∧ st.pw a b)).getD 0
    match rest[bIdx]? with
    | none => st
    | some b =>
      greedyLoop avoidRematches fuel (rest.eraseIdx bIdx)
        (commitChosen [⟨a, b⟩] st)
  | _ + 1, _, st => st

/-- Final deterministic ordering of the pairings (`pairings.sort` at the end of
`generateSwissPairings`). -/
def finalCmp (pos : PlayerID → Int) (sk : PlayerID → Nat) (p1 p2 : Pairing) : Int :=
  let a1 := pos p1.a
  let a2 := pos p2.a
  if a1 ≠ a2 then a1 - a2
  else
    let b1 := pos p1.b
    let b2 := pos p2.b
    if b1 ≠ b2 then b1 - b2
    else (sk (p1.a ++ "::" ++ p1.b) : Int) - sk (p2.a ++ "::" ++ p2.b)

/-- Active (non-retired) rows of the input standings. -/
def activeStandings (standings : List StandingRow) : List StandingRow :=
  standings.filter fun s => !s.retired

/-- Active player ids in standings order. -/
def playersOf (standings : List StandingRow) : List PlayerID :=
  (activeStandings standings).map (·.playerId)

/-- The bye assigned when the active pool is odd: lowest-ranked player without
a prior bye, else the absolute lowest-ranked. -/
def byeOf (standings : List StandingRow) (history : List Match) : Option PlayerID :=
  let players := playersOf standings
  if players.length % 2 = 1 then
    let lowToHigh := players.reverse
    (lowToHigh.find? fun p => ¬ buildByesTaken history p).orElse
      (fun _ => lowToHigh.head?)
  else none

/-- `standingsIndex[id] ?? Number.MAX_SAFE_INTEGER` (the `forEach` assignment
makes the last occurrence win for duplicate ids). -/
def standingsIndexOf (standings : List StandingRow) (p : PlayerID) : Int :=
  match lastIdxOf (playersOf standings) p with
  | some i => (i : Int)
  | none => 2 ^ 53 - 1

/-- `pos[id] ?? 0` used by the final sort. -/
def posOf (standings : List StandingRow) (p : PlayerID) : Int :=
  match lastIdxOf (playersOf standings) p with
  | some i => (i : Int)
  | none => 0

/-- The initial `work` array: score groups keyed by match points in first-seen
order, sorted by descending key (`(a, b) => b - a`, whose sign order is exactly
`b ≤ a`), each group listing its members in standings order, filtered to the
unpaired pool (everyone active except the bye recipient). -/
def initialWork (standings : List StandingRow) (unpaired0 : List PlayerID) :
    List WorkGroup :=
  let active := activeStandings standings
  let mpKeysDesc :=
    List.insertionSort (fun a b : ℚ => b ≤ a) (jsSetOfList (active.map (·.matchPoints)))
  mpKeysDesc.map fun mp =>
    ⟨some mp,
     ((active.filter fun s => s.matchPoints = mp).map (·.playerId)).filter
       (· ∈ unpaired0)⟩

/-- The whole `generateSwissPairings`.  The group loop of the TS code can fail
to terminate (see the termination claims), so the embedding takes a fuel for
that loop and returns `none` when it is exhausted; every other loop is
intrinsically bounded. -/
def generateSwissPairings (standings : List StandingRow) (history : List Match)
    (options : SwissPairingOptions) (fuel : Nat) : Option SwissPairingResult :=
  let players := playersOf standings
  let pw0 := buildPlayedWith history
  let bye := byeOf standings history
  let unpaired0 :=
    match bye with
    | some b => (jsSetOfList players).erase b
    | none => jsSetOfList players
  let sk := seedKey options.eventId
  let work := initialWork standings unpaired0
  let st0 : SwissState := ⟨unpaired0, [], [], fun _ => 0, pw0⟩
  match groupLoop options.protectTopN (standingsIndexOf standings)
      options.maxBacktrack sk fuel work st0 with
  | none => none
  | some st1 =>
    let st2 :=
      if st1.unpaired.length > 0 then
        let ids := jsSort (fun a b => (sk a : Int) - sk b) st1.unpaired
        greedyLoop options.avoidRematches ids.length ids st1
      else st1
    let sorted := jsSort (finalCmp (posOf standings) sk) st2.pairings
    some ⟨sorted, bye, st2.dfc, st2.rematchesUsed⟩

-- ===================== Single elimination standings =====================
-- Embedding of `computeSingleEliminationStandings`
-- (`src/standings/singleelimination.ts`).

/-- String comparison standing in for `a.localeCompare(b)` (codepoint order;
the ids in this development are ASCII, where the two agree). -/
def strCmp (a b : String) : Int :=
  if a < b then -1 else if b < a then 1 else 0

/-- Sign-only comparison of two rationals, standing in for a JS comparator
`x - y` (same sign, and only the sign is used by `sort`). -/
def qCmp (x y : ℚ) : Int :=
  if x < y then -1 else if y < x then 1 else 0

/-- `ComputeSingleEliminationOptions`; `seeding` is the record as a partial
map. -/
structure ComputeSingleEliminationOptions where
  eventId : String := "rankings-core"
  seeding : PlayerID → Option Int := fun _ => none
  useBronzeMatch : Bool := true
  retirementMode : RetirementMode := .withdraw

/-- `SingleEliminationStandingRow`: a standing row plus `eliminationRound`
(the deprecated duplicate field `elimRound` is set to the same value and is
not modelled separately). -/
structure SingleEliminationStandingRow extends StandingRow where
  eliminationRound : Int
deriving DecidableEq, Repr

/-- `byPlayer` key order: first occurrence of each `playerId`. -/
def playersIn (matchList : List Match) : List PlayerID :=
  jsSetOfList (matchList.map (·.playerId))

/-- A player's matchList sorted by `a.round - b.round || a.id.localeCompare(b.id)`. -/
def msOf (matchList : List Match) (p : PlayerID) : List Match :=
  jsSort (fun a b => if a.round ≠ b.round then a.round - b.round else strCmp a.id b.id)
    (matchList.filter fun m => m.playerId = p)

/-- Deepest round in the bracket (`maxRound`, starting from 0). -/
def seMaxRound (matchList : List Match) : Int :=
  matchList.foldl (fun mr m => if m.round > mr then m.round else mr) 0

/-- `eliminationRound` of one player: champion (won in the final round) is one
past the deepest round, otherwise the round of the last match (0 with no
matchList). -/
def seElimRoundOf (matchList : List Match) (p : PlayerID) : Int :=
  let ms := msOf matchList p
  let maxRound := seMaxRound matchList
  match ms.getLast? with
  | some last =>
    if last.round = maxRound ∧
        (last.result = .W ∨ last.result = .FORFEIT_W) then maxRound + 1
    else last.round
  | none => 0

/-- The row built for one player (before sorting and rank assignment). -/
def seRowOf (matchList : List Match) (p : PlayerID) : SingleEliminationStandingRow :=
  let ms := msOf matchList p
  let wins := (ms.filter fun m => m.result = .W ∨ m.result = .FORFEIT_W).length
  let losses := (ms.filter fun m => m.result = .L ∨ m.result = .FORFEIT_L).length
  { rank := 0
    playerId := p
    matchPoints := (wins : ℚ)
    wins := wins
    losses := losses
    draws := 0
    byes := 0
    roundsPlayed := ms.length
    gameWins := ms.foldl (fun a m => a + m.gameWins.getD 0) 0
    gameLosses := ms.foldl (fun a m => a + m.gameLosses.getD 0) 0
    gameDraws := ms.foldl (fun a m => a + m.gameDraws.getD 0) 0
    penalties := ms.foldl (fun a m => a + m.penalties.getD 0) 0
    opponents := ms.filterMap (·.opponentId)
    eliminationRound := seElimRoundOf matchList p }

/-- The single-elimination sort comparator: deeper elimination round first,
then seeding when both seeds exist and differ, then fewer penalties, then a
stable hash. -/
def seCmp (eventId : String) (seeding : PlayerID → Option Int)
    (a b : SingleEliminationStandingRow) : Int :=
  if b.eliminationRound ≠ a.eliminationRound then
    b.eliminationRound - a.eliminationRound
  else
    let withSeeds :=
      match seeding a.playerId, seeding b.playerId with
      | some sa, some sb => if sa ≠ sb then some (sa - sb) else none
      | _, _ => none
    match withSeeds with
    | some d => d
    | none =>
      if a.penalties ≠ b.penalties then a.penalties - b.penalties
      else
        (fnv1a (eventId ++ "::single-elim::" ++ a.playerId) : Int) -
          fnv1a (eventId ++ "::single-elim::" ++ b.playerId)

/-- `rows.forEach((r, i) => r.rank = i + 1)`. -/
def assignRanks (rows : List SingleEliminationStandingRow) :
    List SingleEliminationStandingRow :=
  rows.mapIdx fun i r => { r with rank := (i : Int) + 1 }

/-- `computeSingleEliminationStandings`. -/
def computeSingleEliminationStandings (matchList : List Match)
    (options : ComputeSingleEliminationOptions) :
    List SingleEliminationStandingRow :=
  let rows := (playersIn matchList).map (seRowOf matchList)
  assignRanks (jsSort (seCmp options.eventId options.seeding) rows)

-- ===================== Swiss top cut =====================
-- Embedding of `computeTopCutSeeds` (`src/helpers/swisstopcut.ts`).

/-- A top-cut seed entry. -/
structure TopCutSeed where
  playerId : PlayerID
  seed : Int
  sourceRank : Int
deriving DecidableEq, Repr

/-- The safety-net comparator of `computeTopCutSeeds`: Swiss rank, then the
Swiss tie-break fields (the JS comparator returns differences; only the sign
is used, `qCmp` keeps exactly that sign), then the player id. -/
def cmpTopCut (a b : StandingRow) : Int :=
  if a.rank - b.rank ≠ 0 then a.rank - b.rank
  else if b.matchPoints ≠ a.matchPoints then qCmp b.matchPoints a.matchPoints
  else if |b.omwp - a.omwp| > 1 / 10 ^ 12 then qCmp b.omwp a.omwp
  else if |b.gwp - a.gwp| > 1 / 10 ^ 12 then qCmp b.gwp a.gwp
  else if |b.ogwp - a.ogwp| > 1 / 10 ^ 12 then qCmp b.ogwp a.ogwp
  else if |b.sb - a.sb| > 1 / 10 ^ 12 then qCmp b.sb a.sb
  else strCmp a.playerId b.playerId

/-- `computeTopCutSeeds`.  `cutSize` is modelled as a rational: every finite
JS number is one, and the non-finite guard throws before this body runs. -/
def computeTopCutSeeds (swissStandings : List StandingRow) (cutSize : ℚ) :
    List TopCutSeed :=
  let size : Int := max 0 ⌊cutSize⌋
  if size = 0 then []
  else
    let eligible := swissStandings.filter fun r => !r.retired
    if eligible = [] then []
    else
      let sorted := jsSort cmpTopCut eligible
      let slice := sorted.take (min size (sorted.length : Int)).toNat
      slice.mapIdx fun idx row => ⟨row.playerId, (idx : Int) + 1, row.rank⟩

-- ===================== Match validation =====================
-- Embedding of `validateMatch` (`src/validations/` core + standings
-- validators).  The validators receive untyped JS values; the value model
-- below distinguishes exactly what the acceptance logic can observe.

/-- A JS number as the validators observe it: an integer, or anything else
(finite non-integer, NaN, ±Infinity) — `vInt` rejects all of the latter
alike. -/
inductive JsNum where
  | int (i : Int)
  | nonInt
deriving DecidableEq, Repr

/-- An untyped JS value for a record field. -/
inductive JsVal where
  | str (s : String)
  | num (n : JsNum)
  | null
  | bool (b : Bool)
  | obj
deriving DecidableEq, Repr

/-- The raw (unvalidated) match record; `none` is an absent/`undefined`
property. -/
structure RawMatch where
  id : Option JsVal := none
  round : Option JsVal := none
  playerId : Option JsVal := none
  opponentId : Option JsVal := none
  result : Option JsVal := none
  gameWins : Option JsVal := none
  gameLosses : Option JsVal := none
  gameDraws : Option JsVal := none
  opponentGameWins : Option JsVal := none
  opponentGameLosses : Option JsVal := none
  opponentGameDraws : Option JsVal := none
  penalties : Option JsVal := none
deriving DecidableEq, Repr

/-- `vNonEmptyString`: a string whose `trim()` is non-empty. -/
def vNonEmptyStringB (x : Option JsVal) : Bool :=
  match x with
  | some (.str s) => jsTrim s ≠ ""
  | _ => false

/-- `vInt`: a finite integral number. -/
def vIntB (x : Option JsVal) : Bool :=
  match x with
  | some (.num (.int _)) => true
  | _ => false

/-- `vNullableString`: `null`, or a non-empty (trimmed) string. -/
def vNullableStringB (x : Option JsVal) : Bool :=
  match x with
  | some .null => true
  | other => vNonEmptyStringB other

/-- The six accepted result codes (`MATCH_RESULTS`). -/
def matchResultCodes : List String := ["W", "L", "D", "BYE", "FORFEIT_W", "FORFEIT_L"]

/-- `vMatchResult` (`vLiteral` over the result codes). -/
def vMatchResultB (x : Option JsVal) : Bool :=
  match x with
  | some (.str s) => s ∈ matchResultCodes
  | _ => false

/-- `vOptionalNonNegInt`: absent, or an integer ≥ 0. -/
def vOptionalNonNegIntB (x : Option JsVal) : Bool :=
  match x with
  | none => true
  | some (.num (.int i)) => i ≥ 0
  | some _ => false

/-- `validateMatch` as its acceptance predicate: the result is `ok` exactly
when no validator pushed an error (`!okAll || ctx.errors.length` fails
otherwise). -/
def validateMatch (m : RawMatch) : Bool :=
  let idOk := vNonEmptyStringB m.id
  let roundOk := vIntB m.round
  let playerOk := vNonEmptyStringB m.playerId
  let oppOk := vNullableStringB m.opponentId
  let resOk := vMatchResultB m.result
  let roundMinOk :=
    match m.round with
    | some (.num (.int i)) => i ≥ 1
    | _ => true
  let optsOk :=
    vOptionalNonNegIntB m.gameWins && vOptionalNonNegIntB m.gameLosses &&
    vOptionalNonNegIntB m.gameDraws && vOptionalNonNegIntB m.opponentGameWins &&
    vOptionalNonNegIntB m.opponentGameLosses &&
    vOptionalNonNegIntB m.opponentGameDraws && vOptionalNonNegIntB m.penalties
  let byeOk :=
    if oppOk ∧ resOk then
      match m.opponentId with
      | some .null => m.result = some (.str "BYE")
      | _ => m.result ≠ some (.str "BYE")
    else true
  let selfOk :=
    if playerOk ∧ oppOk then
      match m.opponentId with
      | some (.str s) => m.playerId ≠ some (.str s)
      | _ => true
    else true
  idOk && roundOk && playerOk && oppOk && resOk && roundMinOk && optsOk &&
    byeOk && selfOk

/-- The well-formedness notion as the claim words it (for the refinement
comparison with `validateMatch`): id and playerId non-empty strings, round an
integer ≥ 1, result one of the six codes, `opponentId` null exactly when the
result is BYE, playerId different from opponentId, and each supplied
game/penalty field a non-negative integer. -/
def claimWellFormedMatch (m : RawMatch) : Prop :=
  (∃ s, m.id = some (.str s) ∧ s ≠ "") ∧
  (∃ s, m.playerId = some (.str s) ∧ s ≠ "") ∧
  (∃ i, m.round = some (.num (.int i)) ∧ 1 ≤ i) ∧
  (∃ s, m.result = some (.str s) ∧ s ∈ matchResultCodes) ∧
  (m.opponentId = some .null ↔ m.result = some (.str "BYE")) ∧
  (∀ s, m.opponentId = some (.str s) → m.playerId ≠ some (.str s)) ∧
  (vOptionalNonNegIntB m.gameWins ∧ vOptionalNonNegIntB m.gameLosses ∧
   vOptionalNonNegIntB m.gameDraws ∧ vOptionalNonNegIntB m.opponentGameWins ∧
   vOptionalNonNegIntB m.opponentGameLosses ∧
   vOptionalNonNegIntB m.opponentGameDraws ∧ vOptionalNonNegIntB m.penalties)

instance (m : RawMatch) : Decidable (claimWellFormedMatch m) := by
  unfold claimWellFormedMatch
  have : ∀ x : Option JsVal, Decidable (∃ s, x = some (.str s) ∧ s ≠ "") := by
    intro x
    match x with
    | some (.str s) => exact decidable_of_iff (s ≠ "") (by simp)
    | none => exact .isFalse (by simp)
    | some .null | some (.num _) | some (.bool _) | some .obj =>
      exact .isFalse (by simp)
  have : ∀ x : Option JsVal, Decidable (∃ i, x = some (.num (.int i)) ∧ 1 ≤ i) := by
    intro x
    match x with
    | some (.num (.int i)) => exact decidable_of_iff (1 ≤ i) (by simp)
    | none => exact .isFalse (by simp)
    | some .null | some (.str _) | some (.num .nonInt) | some (.bool _)
    | some .obj => exact .isFalse (by simp)
  have : ∀ x : Option JsVal, Decidable (∃ s, x = some (.str s) ∧ s ∈ matchResultCodes) := by
    intro x
    match x with
    | some (.str s) => exact decidable_of_iff (s ∈ matchResultCodes) (by simp)
    | none => exact .isFalse (by simp)
    | some .null | some (.num _) | some (.bool _) | some .obj =>
      exact .isFalse (by simp)
  have : ∀ x y : Option JsVal,
      Decidable (∀ s, x = some (.str s) → y ≠ some (.str s)) := by
    intro x y
    match x with
    | some (.str s) =>
      exact decidable_of_iff (y ≠ some (.str s)) (by simp)
    | none => exact .isTrue (by simp)
    | some .null | some (.num _) | some (.bool _) | some .obj =>
      exact .isTrue (by simp)
  infer_instance

/-- The corrected well-formedness notion that `validateMatch` actually
decides: strings must be non-blank after trimming, and `opponentId` must be
present — null exactly for a BYE, otherwise a non-blank string different from
`playerId`. -/
def amendedWellFormedMatch (m : RawMatch) : Prop :=
  (∃ s, m.id = some (.str s) ∧ jsTrim s ≠ "") ∧
  (∃ s, m.playerId = some (.str s) ∧ jsTrim s ≠ "") ∧
  (∃ i, m.round = some (.num (.int i)) ∧ 1 ≤ i) ∧
  (∃ s, m.result = some (.str s) ∧ s ∈ matchResultCodes) ∧
  (m.opponentId = some .null ∨ ∃ s, m.opponentId = some (.str s) ∧ jsTrim s ≠ "") ∧
  (m.opponentId = some .null ↔ m.result = some (.str "BYE")) ∧
  (∀ s, m.opponentId = some (.str s) → m.playerId ≠ some (.str s)) ∧
  (vOptionalNonNegIntB m.gameWins ∧ vOptionalNonNegIntB m.gameLosses ∧
   vOptionalNonNegIntB m.gameDraws ∧ vOptionalNonNegIntB m.opponentGameWins ∧
   vOptionalNonNegIntB m.opponentGameLosses ∧
   vOptionalNonNegIntB m.opponentGameDraws ∧ vOptionalNonNegIntB m.penalties)

-- ===================== Standings engines and facade =====================
-- `computeStandings` (`src/standings/index.ts`) dispatches to three engines.
-- The single-elimination engine is embedded from its source above; the Swiss
-- and round-robin engines (`src/standings/swiss.ts`, `src/standings/
-- roundrobin.ts`) are not part of the available sources — only their types,
-- facade and callers are — so they are modelled from the spec (§4.1) below.

/-- `PointsConfig` defaults (3/1/0/3). -/
structure PointsConfig where
  win : ℚ := 3
  draw : ℚ := 1
  loss : ℚ := 0
  bye : ℚ := 3

structure TiebreakFloors where
  opponentPctFloor : ℚ := 33 / 100

structure TiebreakVirtualByeOptions where
  enabled : Bool := false
  mwp : ℚ := 1 / 2
  gwp : ℚ := 1 / 2

/-- `ComputeSwissOptions` (types file). -/
structure ComputeSwissOptions where
  eventId : String := "rankings-core"
  applyHeadToHead : Bool := true
  tiebreakFloors : TiebreakFloors := {}
  points : PointsConfig := {}
  acceptSingleEntryMatches : Bool := false
  tiebreakVirtualBye : TiebreakVirtualByeOptions := {}
  retirementMode : RetirementMode := .withdraw

/-- `ComputeRoundRobinOptions` has the same shape. -/
abbrev ComputeRoundRobinOptions := ComputeSwissOptions

/-- Modelled from the spec: the mirror record synthesized for single-sided
ingestion (§4.1 step 2) — opposite result, swapped game tallies. -/
def mirrorOf (m : Match) (opp : PlayerID) : Match :=
  { m with
    playerId := opp
    opponentId := some m.playerId
    result :=
      match m.result with
      | .W => .L
      | .L => .W
      | .FORFEIT_W => .FORFEIT_L
      | .FORFEIT_L => .FORFEIT_W
      | r => r
    gameWins := m.gameLosses
    gameLosses := m.gameWins }

/-- Modelled from the spec: when single-sided ingestion is enabled, synthesize
the missing mirror whenever exactly one side of a pairing/round is present
(§4.1 step 2). -/
def augmentSingleEntry (ms : List Match) : List Match :=
  ms ++ ms.filterMap fun m =>
    match m.opponentId with
    | none => none
    | some opp =>
      if ms.any fun m2 =>
          m2.playerId = opp ∧ m2.opponentId = some m.playerId ∧
            m2.round = m.round then none
      else some (mirrorOf m opp)

/-- Match points awarded for one result under a points configuration. -/
def pointsFor (cfg : PointsConfig) : MatchResult → ℚ
  | .W | .FORFEIT_W => cfg.win
  | .D => cfg.draw
  | .L | .FORFEIT_L => cfg.loss
  | .BYE => cfg.bye

/-- Modelled from the spec: per-competitor aggregation of the ledger
(§4.1 steps 3–4).  `swiss.ts` is missing from the sources. -/
def swissAgg (ledger : List Match) (p : PlayerID) : List Match :=
  ledger.filter fun m => m.playerId = p

def swissMatchPoints (ledger : List Match) (cfg : PointsConfig) (p : PlayerID) : ℚ :=
  (swissAgg ledger p).foldl (fun acc m => acc + pointsFor cfg m.result) 0

def swissMwp (ledger : List Match) (cfg : PointsConfig) (p : PlayerID) : ℚ :=
  let n := (swissAgg ledger p).length
  if n = 0 ∨ cfg.win = 0 then 0
  else swissMatchPoints ledger cfg p / (cfg.win * n)

def swissGwp (ledger : List Match) (p : PlayerID) : ℚ :=
  let ms := swissAgg ledger p
  let gw : Int := ms.foldl (fun a m => a + m.gameWins.getD 0) 0
  let gl : Int := ms.foldl (fun a m => a + m.gameLosses.getD 0) 0
  let gd : Int := ms.foldl (fun a m => a + m.gameDraws.getD 0) 0
  let total : Int := gw + gl + gd
  if total = 0 then 0 else ((gw : ℚ) + (gd : ℚ) / 2) / (total : ℚ)

/-- Opponents faced (byes excluded), in order, with multiplicity. -/
def swissOpponents (ledger : List Match) (p : PlayerID) : List PlayerID :=
  (swissAgg ledger p).filterMap (·.opponentId)

/-- Modelled from the spec: opponents' average rate with per-opponent floor,
plus one synthetic entry per received bye when virtual byes are enabled
(§4.1 step 5). -/
def swissOppAvg (entries : List ℚ) : ℚ :=
  if entries = [] then 0 else entries.foldl (· + ·) 0 / (entries.length : ℚ)

def swissOmwp (ledger : List Match) (opts : ComputeSwissOptions) (p : PlayerID) : ℚ :=
  let fl := opts.tiebreakFloors.opponentPctFloor
  let byes := ((swissAgg ledger p).filter fun m => m.result = .BYE).length
  let entries :=
    (swissOpponents ledger p).map
      (fun q => max fl (swissMwp ledger opts.points q)) ++
    (if opts.tiebreakVirtualBye.enabled then
        List.replicate byes (max fl opts.tiebreakVirtualBye.mwp)
      else [])
  swissOppAvg entries

def swissOgwp (ledger : List Match) (opts : ComputeSwissOptions) (p : PlayerID) : ℚ :=
  let fl := opts.tiebreakFloors.opponentPctFloor
  let byes := ((swissAgg ledger p).filter fun m => m.result = .BYE).length
  let entries :=
    (swissOpponents ledger p).map
      (fun q => max fl (swissGwp ledger q)) ++
    (if opts.tiebreakVirtualBye.enabled then
        List.replicate byes (max fl opts.tiebreakVirtualBye.gwp)
      else [])
  swissOppAvg entries

/-- Modelled from the spec: Sonneborn–Berger — over faced opponents, the
fraction of points earned against that opponent times the opponent's match
points (§4.1 step 6). -/
def swissSb (ledger : List Match) (cfg : PointsConfig) (p : PlayerID) : ℚ :=
  (jsSetOfList (swissOpponents ledger p)).foldl
    (fun acc q =>
      let vs := (swissAgg ledger p).filter fun m => m.opponentId = some q
      let earned := vs.foldl (fun a m => a + pointsFor cfg m.result) 0
      let possible := cfg.win * vs.length
      acc + (if possible = 0 then 0 else earned / possible) *
        swissMatchPoints ledger cfg q)
    0

/-- Modelled from the spec: the row built for one competitor; `swiss.ts` is
missing from the sources, so fields follow §3/§4.1 directly. -/
def swissRowOf (ledger : List Match) (opts : ComputeSwissOptions) (p : PlayerID) :
    StandingRow :=
  let ms := swissAgg ledger p
  { rank := 0
    playerId := p
    matchPoints := swissMatchPoints ledger opts.points p
    mwp := swissMwp ledger opts.points p
    omwp := swissOmwp ledger opts p
    gwp := swissGwp ledger p
    ogwp := swissOgwp ledger opts p
    sb := swissSb ledger opts.points p
    wins := ((ms.filter fun m => m.result = .W ∨ m.result = .FORFEIT_W).length : Int)
    losses := ((ms.filter fun m => m.result = .L ∨ m.result = .FORFEIT_L).length : Int)
    draws := ((ms.filter fun m => m.result = .D).length : Int)
    byes := ((ms.filter fun m => m.result = .BYE).length : Int)
    roundsPlayed := (ms.length : Int)
    gameWins := ms.foldl (fun a m => a + m.gameWins.getD 0) 0
    gameLosses := ms.foldl (fun a m => a + m.gameLosses.getD 0) 0
    gameDraws := ms.foldl (fun a m => a + m.gameDraws.getD 0) 0
    penalties := ms.foldl (fun a m => a + m.penalties.getD 0) 0
    opponents := swissOpponents ledger p
    retired := false }

/-- Modelled from the spec: the descending tie-break chain — match points,
opponents' match-win rate, game-win rate, opponents' game-win rate,
Sonneborn–Berger, then the stable per-event hash (§4.1 step 7).  The optional
head-to-head refinement applies only inside two-element tied blocks; it
permutes rows before rank assignment and never changes the row set, and is
not part of this model. -/
def swissCmp (eventId : String) (a b : StandingRow) : Int :=
  if b.matchPoints ≠ a.matchPoints then qCmp b.matchPoints a.matchPoints
  else if b.omwp ≠ a.omwp then qCmp b.omwp a.omwp
  else if b.gwp ≠ a.gwp then qCmp b.gwp a.gwp
  else if b.ogwp ≠ a.ogwp then qCmp b.ogwp a.ogwp
  else if b.sb ≠ a.sb then qCmp b.sb a.sb
  else (fnv1a (eventId ++ "::standings::" ++ a.playerId) : Int) -
    fnv1a (eventId ++ "::standings::" ++ b.playerId)

/-- Assign ranks 1..N in sorted order (§4.1 step 8). -/
def assignRanksSR (rows : List StandingRow) : List StandingRow :=
  rows.mapIdx fun i r => { r with rank := (i : Int) + 1 }

/-- Modelled from the spec: `computeSwissStandings` — `src/standings/swiss.ts`
is not among the available sources (only its facade, types, validators and
callers are), so the engine is reconstructed from §4.1: optional mirror
synthesis, one aggregated row per competitor, the descending tie-break chain,
then ranks 1..N. -/
def computeSwissStandings (matchList : List Match) (opts : ComputeSwissOptions) :
    List StandingRow :=
  let ledger :=
    if opts.acceptSingleEntryMatches then augmentSingleEntry matchList
    else matchList
  let competitors := jsSetOfList (ledger.map (·.playerId))
  assignRanksSR (jsSort (swissCmp opts.eventId) (competitors.map (swissRowOf ledger opts)))

/-- Modelled from the spec: `computeRoundRobinStandings` —
`src/standings/roundrobin.ts` is not among the available sources; per §4.1/§6
it shares the ledger aggregation and tie-break chain with the Swiss engine. -/
def computeRoundRobinStandings (matchList : List Match)
    (opts : ComputeRoundRobinOptions) : List StandingRow :=
  computeSwissStandings matchList opts

/-- `ComputeStandingsRequest` (the three-mode union). -/
inductive ComputeStandingsRequest where
  | swiss (matchList : List Match) (options : ComputeSwissOptions)
  | roundrobin (matchList : List Match) (options : ComputeRoundRobinOptions)
  | singleelimination (matchList : List Match)
      (options : ComputeSingleEliminationOptions)

/-- The ledger whose distinct `playerId`s are the competitors receiving rows. -/
def requestCompetitors : ComputeStandingsRequest → List PlayerID
  | .swiss ms opts =>
    jsSetOfList ((if opts.acceptSingleEntryMatches then augmentSingleEntry ms
      else ms).map (·.playerId))
  | .roundrobin ms opts =>
    jsSetOfList ((if opts.acceptSingleEntryMatches then augmentSingleEntry ms
      else ms).map (·.playerId))
  | .singleelimination ms _ => playersIn ms

/-- `computeStandings` (`src/standings/index.ts`): dynamic dispatch by mode.
Single elimination returns rows of the extended shape; for a uniform return
type the facade result is given as the base rows paired with the elimination
rounds. -/
def computeStandings : ComputeStandingsRequest → List StandingRow
  | .swiss ms opts => computeSwissStandings ms opts
  | .roundrobin ms opts => computeRoundRobinStandings ms opts
  | .singleelimination ms opts =>
    (computeSingleEliminationStandings ms opts).map (·.toStandingRow)

-- ===================== Claim-side notions =====================
-- Definitions used to state the spec claims, written from the claims' own
-- words so the theorems compare them with the embedded code.

/-- Both members of every pairing, in order. -/
def pairsFlat (l : List Pairing) : List PlayerID :=
  l.flatMap fun p => [p.a, p.b]

/-- All competitors a pairing result accounts for: both members of every
pairing plus the bye recipient, as a multiset. -/
def accountedPlayers (r : SwissPairingResult) : Multiset PlayerID :=
  (pairsFlat r.pairings : Multiset PlayerID) + (r.bye.toList : Multiset PlayerID)

/-- `m` is a perfect matching of `group` in which no two paired players have
previously met according to `pw`. -/
def cleanPerfectMatching (pw : PlayerID → PlayerID → Bool)
    (group : List PlayerID) (m : List Pairing) : Prop :=
  (pairsFlat m).Perm group ∧ ∀ p ∈ m, pw p.a p.b = false

instance (pw : PlayerID → PlayerID → Bool) (group : List PlayerID)
    (m : List Pairing) : Decidable (cleanPerfectMatching pw group m) := by
  unfold cleanPerfectMatching
  infer_instance

/-- The bye recipient as the claim describes it: for an odd active pool the
lowest-ranked (last in standings order) active competitor without a prior
bye, else the absolute lowest-ranked; no bye for an even pool. -/
def claimedByeRecipient (standings : List StandingRow) (history : List Match) :
    Option PlayerID :=
  let players := playersOf standings
  if players.length % 2 = 1 then
    let noPrior := players.filter fun p => ¬ buildByesTaken history p
    if noPrior ≠ [] then noPrior.getLast? else players.getLast?
  else none

/-- The pairing order the claim describes: each pair keyed by its better-placed
member's standings position, then the worse-placed member's, then the seed
hash of the concatenated ids. -/
def claimPairLe (pos : PlayerID → Int) (sk : PlayerID → Nat) (p q : Pairing) :
    Prop :=
  min (pos p.a) (pos p.b) < min (pos q.a) (pos q.b) ∨
    (min (pos p.a) (pos p.b) = min (pos q.a) (pos q.b) ∧
      (max (pos p.a) (pos p.b) < max (pos q.a) (pos q.b) ∨
        (max (pos p.a) (pos p.b) = max (pos q.a) (pos q.b) ∧
          sk (p.a ++ "::" ++ p.b) ≤ sk (q.a ++ "::" ++ q.b))))

instance (pos : PlayerID → Int) (sk : PlayerID → Nat) (p q : Pairing) :
    Decidable (claimPairLe pos sk p q) := by
  unfold claimPairLe
  infer_instance

/-- The claim-side elimination depth: the round of the player's last bracket
match, except that winning (or forfeit-winning) one's last match in the
deepest round of the bracket makes the player champion, one past that round. -/
def claimElimDepth (matchList : List Match) (p : PlayerID) : Int :=
  let deepest := (matchList.map (·.round)).foldr max 0
  match (msOf matchList p).getLast? with
  | none => 0
  | some last =>
    if last.round = deepest ∧ (last.result = .W ∨ last.result = .FORFEIT_W) then
      deepest + 1
    else last.round

-- ===================== Concrete instances =====================
-- Small inputs used by the witnesses and counterexamples below.

/-- A minimal standings row. -/
def sampleRow (p : PlayerID) (mp : ℚ) (ret : Bool := false) : StandingRow :=
  { rank := 0, playerId := p, matchPoints := mp, retired := ret }

/-- A minimal match record. -/
def sampleMatch (i : String) (r : Int) (p : PlayerID) (o : Option PlayerID)
    (res : MatchResult) : Match :=
  { id := i, round := r, playerId := p, opponentId := o, result := res }

/-- A 4-player bracket whose final is a double loss. -/
def seFinalMatches : List Match :=
  [sampleMatch "m1" 1 "A" (some "B") .W, sampleMatch "m2" 1 "B" (some "A") .L,
   sampleMatch "m3" 1 "C" (some "D") .W, sampleMatch "m4" 1 "D" (some "C") .L,
   sampleMatch "m5" 2 "A" (some "C") .L, sampleMatch "m6" 2 "C" (some "A") .L]

/-- Seeding for that bracket: A, B, C, D seeded 1..4. -/
def seFinalSeeding : PlayerID → Option Int := fun p =>
  if p = "A" then some 1 else if p = "B" then some 2
  else if p = "C" then some 3 else if p = "D" then some 4 else none

def seFinalOptions : ComputeSingleEliminationOptions := { seeding := seFinalSeeding }

/-- Four standings rows with match points 9/6/6/0: the lone leader downfloats
through the middle group and ends up paired `{a := D, b := A}`. -/
def floatStandings : List StandingRow :=
  [sampleRow "A" 9, sampleRow "B" 6, sampleRow "C" 6, sampleRow "D" 0]

/-- One score group of four with only `P3`–`P4` having met. -/
def rematchStandings : List StandingRow :=
  [sampleRow "P1" 3, sampleRow "P2" 3, sampleRow "P3" 3, sampleRow "P4" 3]

def rematchHistory : List Match :=
  [sampleMatch "h1" 1 "P3" (some "P4") .W,
   sampleMatch "h2" 1 "P4" (some "P3") .L]

/-- Two rows sharing one `playerId`, one retired and one not. -/
def dupIdStandings : List StandingRow :=
  [sampleRow "P" 0 true, sampleRow "P" 0 false]

/-- Two active players — with `maxBacktrack := 0` the group loop never
terminates on them. -/
def twoPlayerStandings : List StandingRow :=
  [sampleRow "A" 0, sampleRow "B" 0]

/-- A raw match record whose `id` is whitespace only. -/
def blankIdRawMatch : RawMatch :=
  { id := some (.str " "), round := some (.num (.int 1)),
    playerId := some (.str "p"), opponentId := some .null,
    result := some (.str "BYE") }

/-- A valid raw match record. -/
def okRawMatch : RawMatch :=
  { id := some (.str "m1"), round := some (.num (.int 1)),
    playerId := some (.str "p"), opponentId := some (.str "q"),
    result := some (.str "W"), gameWins := some (.num (.int 2)) }

/-- The empty pairing result, the `getD` default when projecting a concrete
run. -/
def emptyResult : SwissPairingResult := ⟨[], none, fun _ => 0, []⟩

/-- All-default pairing options. -/
def defaultSwissOptions : SwissPairingOptions := {}

/-- Options with a tiny DFS budget (`maxBacktrack := 3`). -/
def lowBudgetOptions : SwissPairingOptions := { maxBacktrack := 3 }

/-- Options with a zero DFS budget (`maxBacktrack := 0`); the pairing input
validation accepts any non-negative integer budget. -/
def zeroBudgetOptions : SwissPairingOptions := { maxBacktrack := 0 }

/-- Three active players: `C` (lowest-ranked, no prior bye) takes the bye. -/
def oddStandings : List StandingRow :=
  [sampleRow "A" 3, sampleRow "B" 3, sampleRow "C" 0]

/-- Two active players and one retired row with a distinct id. -/
def retiredMixStandings : List StandingRow :=
  [sampleRow "A" 3, sampleRow "B" 3, sampleRow "R" 0 true]

-- ===================== General lemmas =====================

theorem jsSort_perm (cmp : α → α → Int) (l : List α) : List.Perm (jsSort cmp l) l :=
  List.perm_insertionSort _ l

theorem jsSort_length (cmp : α → α → Int) (l : List α) :
    (jsSort cmp l).length = l.length :=
  (jsSort_perm cmp l).length_eq

theorem jsSetOfList_nodup [DecidableEq α] (xs : List α) : (jsSetOfList xs).Nodup := by
  suffices h : ∀ acc : List α, acc.Nodup →
      (xs.foldl (fun acc x => if x ∈ acc then acc else acc ++ [x]) acc).Nodup by
    exact h [] List.nodup_nil
  induction xs with
  | nil => intro acc h; exact h
  | cons x xs ih =>
    intro acc h
    by_cases hx : x ∈ acc
    · simpa [List.foldl_cons, hx] using ih acc h
    · have : (acc ++ [x]).Nodup := by
        simp [List.nodup_append, h, hx]
      simpa [List.foldl_cons, hx] using ih _ this

theorem jsSetOfList_foldl_eq [DecidableEq α] :
    ∀ (xs acc : List α), (∀ x ∈ xs, x ∉ acc) → xs.Nodup →
      xs.foldl (fun acc x => if x ∈ acc then acc else acc ++ [x]) acc = acc ++ xs := by
  intro xs
  induction xs with
  | nil => intro acc _ _; simp
  | cons x xs ih =>
    intro acc hacc hnd
    have hx : x ∉ acc := hacc x (by simp)
    have hxs : ∀ y ∈ xs, y ∉ acc ++ [x] := by
      intro y hy
      have h1 : y ∉ acc := hacc y (by simp [hy])
      have h2 : y ≠ x := fun h => (List.nodup_cons.mp hnd).1 (h ▸ hy)
      simp [h1, h2]
    have hrec := ih (acc ++ [x]) hxs (List.nodup_cons.mp hnd).2
    simp only [List.foldl_cons, if_neg hx, hrec, List.append_assoc,
      List.singleton_append]

theorem jsSetOfList_eq_self [DecidableEq α] {xs : List α} (h : xs.Nodup) :
    jsSetOfList xs = xs := by
  simpa [jsSetOfList] using jsSetOfList_foldl_eq xs [] (by simp) h

theorem map_comp_mapIdx (l : List α) (f : ℕ → α → β) (g : β → γ) :
    (l.mapIdx f).map g = l.mapIdx fun i a => g (f i a) := by
  simp [List.mapIdx_eq_enum_map, List.map_map, Function.comp_def, Function.uncurry]

-- ===================== C10: top-cut seeds =====================

theorem topcut_no_retired (standings : List StandingRow) (cutSize : ℚ)
    (e : TopCutSeed) (he : e ∈ computeTopCutSeeds standings cutSize) :
    ∃ row ∈ standings, row.playerId = e.playerId ∧ row.retired = false := by
  unfold computeTopCutSeeds at he
  by_cases h0 : (max 0 ⌊cutSize⌋ : Int) = 0
  · simp [h0] at he
  · simp only [if_neg h0] at he
    by_cases h1 : standings.filter (fun r => !r.retired) = []
    · simp [h1] at he
    · simp only [if_neg h1] at he
      rw [List.mem_mapIdx] at he
      obtain ⟨i, hi, hrow⟩ := he
      set sorted := jsSort cmpTopCut (standings.filter fun r => !r.retired) with hs
      set slice := sorted.take (min (max 0 ⌊cutSize⌋) (sorted.length : Int)).toNat
        with hsl
      have hmem : slice[i] ∈ slice := List.getElem_mem _
      have hmem2 : slice[i] ∈ sorted := List.mem_of_mem_take hmem
      have hmem3 : slice[i] ∈ standings.filter (fun r => !r.retired) :=
        (jsSort_perm _ _).mem_iff.mp hmem2
      rw [List.mem_filter] at hmem3
      refine ⟨slice[i], hmem3.1, ?_, ?_⟩
      · rw [← hrow]
      · simpa using hmem3.2

theorem topcut_length (standings : List StandingRow) (cutSize : ℚ) :
    (computeTopCutSeeds standings cutSize).length =
      min (max 0 ⌊cutSize⌋).toNat
        (standings.filter fun r => !r.retired).length := by
  unfold computeTopCutSeeds
  by_cases h0 : (max 0 ⌊cutSize⌋ : Int) = 0
  · simp [h0]
  · simp only [if_neg h0]
    by_cases h1 : standings.filter (fun r => !r.retired) = []
    · simp [h1]
    · simp only [if_neg h1]
      rw [List.length_mapIdx, List.length_take, jsSort_length]
      have hpos : (0 : Int) ≤ max 0 ⌊cutSize⌋ := le_max_left _ _
      omega

theorem topcut_seed_numbers (standings : List StandingRow) (cutSize : ℚ) :
    ∀ (i : ℕ) (h : i < (computeTopCutSeeds standings cutSize).length),
      (computeTopCutSeeds standings cutSize)[i].seed = (i : Int) + 1 := by
  unfold computeTopCutSeeds
  by_cases h0 : (max 0 ⌊cutSize⌋ : Int) = 0
  · simp [h0]
  · simp only [if_neg h0]
    by_cases h1 : standings.filter (fun r => !r.retired) = []
    · simp [h1]
    · simp only [if_neg h1]
      intro i h
      simp [List.getElem_mapIdx]

/-- C10: `computeTopCutSeeds` never seeds a retired row, returns exactly
`min(max(0, ⌊cutSize⌋), #non-retired rows)` entries, and numbers the seeds
consecutively from 1 in output order. -/
theorem topcut_spec (standings : List StandingRow) (cutSize : ℚ) :
    (∀ e ∈ computeTopCutSeeds standings cutSize,
      ∃ row ∈ standings, row.playerId = e.playerId ∧ row.retired = false) ∧
    (computeTopCutSeeds standings cutSize).length =
      min (max 0 ⌊cutSize⌋).toNat
        (standings.filter fun r => !r.retired).length ∧
    (∀ (i : ℕ) (h : i < (computeTopCutSeeds standings cutSize).length),
      (computeTopCutSeeds standings cutSize)[i].seed = (i : Int) + 1) :=
  ⟨fun e he => topcut_no_retired standings cutSize e he,
   topcut_length standings cutSize,
   topcut_seed_numbers standings cutSize⟩

-- ===================== C4: unique ranks 1..N =====================

theorem assignRanksSR_rank (l : List StandingRow) (i : ℕ)
    (h : i < (assignRanksSR l).length) :
    (assignRanksSR l)[i].rank = (i : Int) + 1 := by
  simp [assignRanksSR, List.getElem_mapIdx]

theorem assignRanksSR_map_playerId (l : List StandingRow) :
    (assignRanksSR l).map (·.playerId) = l.map (·.playerId) := by
  rw [assignRanksSR, map_comp_mapIdx]
  simp only [List.mapIdx_eq_enum_map, Function.uncurry_def]
  rw [show (fun p : ℕ × StandingRow => p.2.playerId) =
    (fun r : StandingRow => r.playerId) ∘ Prod.snd from rfl]
  rw [← List.map_map, List.enum_map_snd]

theorem assignRanks_rank (l : List SingleEliminationStandingRow) (i : ℕ)
    (h : i < (assignRanks l).length) :
    (assignRanks l)[i].rank = (i : Int) + 1 := by
  simp [assignRanks, List.getElem_mapIdx]

theorem assignRanks_map_playerId (l : List SingleEliminationStandingRow) :
    (assignRanks l).map (·.playerId) = l.map (·.playerId) := by
  rw [assignRanks, map_comp_mapIdx]
  simp only [List.mapIdx_eq_enum_map, Function.uncurry_def]
  rw [show (fun p : ℕ × SingleEliminationStandingRow => p.2.playerId) =
    (fun r : SingleEliminationStandingRow => r.playerId) ∘ Prod.snd from rfl]
  rw [← List.map_map, List.enum_map_snd]

theorem computeSwissStandings_playerIds (ms : List Match)
    (opts : ComputeSwissOptions) :
    List.Perm ((computeSwissStandings ms opts).map (·.playerId))
      (jsSetOfList ((if opts.acceptSingleEntryMatches then augmentSingleEntry ms
        else ms).map (·.playerId))) := by
  unfold computeSwissStandings
  rw [assignRanksSR_map_playerId]
  refine ((jsSort_perm _ _).map _).trans ?_
  rw [List.map_map]
  have : ((fun r : StandingRow => r.playerId) ∘
      swissRowOf (if opts.acceptSingleEntryMatches then augmentSingleEntry ms
        else ms) opts) = id := by
    funext p
    simp [swissRowOf]
  rw [this, List.map_id]

theorem computeSE_playerIds (ms : List Match)
    (opts : ComputeSingleEliminationOptions) :
    List.Perm ((computeSingleEliminationStandings ms opts).map (·.playerId))
      (playersIn ms) := by
  unfold computeSingleEliminationStandings
  rw [assignRanks_map_playerId]
  refine ((jsSort_perm _ _).map _).trans ?_
  rw [List.map_map]
  have hco : ((fun r : SingleEliminationStandingRow => r.playerId) ∘ seRowOf ms) = id := by
    funext p
    simp [seRowOf]
  rw [hco, List.map_id]

/-- C4: `computeStandings` returns one row per competitor, with the rank
fields exactly 1..N in output order (so every competitor gets a unique rank
and no two rows share one). -/
theorem computeStandings_unique_ranks (req : ComputeStandingsRequest) :
    List.Perm ((computeStandings req).map (·.playerId)) (requestCompetitors req) ∧
    ∀ (i : ℕ) (h : i < (computeStandings req).length),
      (computeStandings req)[i].rank = (i : Int) + 1 := by
  cases req with
  | swiss ms opts =>
    refine ⟨computeSwissStandings_playerIds ms opts, ?_⟩
    intro i h
    exact assignRanksSR_rank _ i h
  | roundrobin ms opts =>
    refine ⟨computeSwissStandings_playerIds ms opts, ?_⟩
    intro i h
    exact assignRanksSR_rank _ i h
  | singleelimination ms opts =>
    constructor
    · show List.Perm (((computeSingleEliminationStandings ms opts).map
        (fun r : SingleEliminationStandingRow => r.toStandingRow)).map
          (fun r : StandingRow => r.playerId)) (playersIn ms)
      rw [List.map_map]
      exact computeSE_playerIds ms opts
    · intro i h
      show (((computeSingleEliminationStandings ms opts).map
        (fun r : SingleEliminationStandingRow => r.toStandingRow)).get
          ⟨i, h⟩).rank = (i : Int) + 1
      rw [List.get_eq_getElem, List.getElem_map]
      have hlen : i < (computeSingleEliminationStandings ms opts).length := by
        have h2 : i < ((computeSingleEliminationStandings ms opts).map
          (fun r : SingleEliminationStandingRow => r.toStandingRow)).length := h
        simpa using h2
      show ((computeSingleEliminationStandings ms opts).get ⟨i, hlen⟩).rank
        = (i : Int) + 1
      rw [List.get_eq_getElem]
      unfold computeSingleEliminationStandings at hlen ⊢
      exact assignRanks_rank _ i hlen

-- ===================== C9: single-elimination depth and order ==============

theorem pairwise_orderedInsert (r : α → α → Prop) [DecidableRel r] (P : α → Prop)
    (htot : ∀ a b, P a → P b → r a b ∨ r b a)
    (htrans : ∀ a b c, P a → P b → P c → r a b → r b c → r a c)
    (a : α) (ha : P a) :
    ∀ l : List α, (∀ x ∈ l, P x) → l.Pairwise r →
      (List.orderedInsert r a l).Pairwise r := by
  intro l
  induction l with
  | nil => intro _ _; simp
  | cons b l ih =>
    intro hP hpw
    have hPb : P b := hP b (by simp)
    have hPl : ∀ x ∈ l, P x := fun x hx => hP x (by simp [hx])
    rw [List.orderedInsert]
    by_cases hab : r a b
    · rw [if_pos hab]
      refine List.Pairwise.cons ?_ hpw
      intro x hx
      rcases List.mem_cons.mp hx with h | h
      · exact h ▸ hab
      · exact htrans a b x ha hPb (hPl x h) hab ((List.pairwise_cons.mp hpw).1 x h)
    · rw [if_neg hab]
      refine List.Pairwise.cons ?_ (ih hPl (List.pairwise_cons.mp hpw).2)
      intro x hx
      rcases (List.mem_orderedInsert r).mp hx with h | h
      · rcases htot a b ha hPb with h2 | h2
        · exact absurd h2 hab
        · rw [h]
          exact h2
      · exact (List.pairwise_cons.mp hpw).1 x h

theorem pairwise_insertionSort (r : α → α → Prop) [DecidableRel r] (P : α → Prop)
    (htot : ∀ a b, P a → P b → r a b ∨ r b a)
    (htrans : ∀ a b c, P a → P b → P c → r a b → r b c → r a c) :
    ∀ l : List α, (∀ x ∈ l, P x) → (List.insertionSort r l).Pairwise r := by
  intro l
  induction l with
  | nil => intro _; simp
  | cons a l ih =>
    intro hP
    rw [List.insertionSort]
    refine pairwise_orderedInsert r P htot htrans a (hP a (by simp)) _ ?_
      (ih fun x hx => hP x (by simp [hx]))
    intro x hx
    exact hP x (by simp [(List.perm_insertionSort r l).mem_iff.mp hx])

theorem seMaxRound_eq (ms : List Match) :
    seMaxRound ms = (ms.map (·.round)).foldr max 0 := by
  suffices h : ∀ acc : Int,
      ms.foldl (fun mr m => if m.round > mr then m.round else mr) acc =
        (ms.map (·.round)).foldr max acc by
    exact h 0
  induction ms with
  | nil => intro acc; rfl
  | cons m ms ih =>
    intro acc
    have h1 : (if m.round > acc then m.round else acc) = max m.round acc := by
      rw [max_def]
      split <;> split <;> omega
    have h2 : ∀ (l : List Int) (a b : Int),
        l.foldr max (max a b) = max a (l.foldr max b) := by
      intro l
      induction l with
      | nil => intro a b; rfl
      | cons c l ihl =>
        intro a b
        simp only [List.foldr_cons, ihl, max_left_comm]
    simp only [List.foldl_cons, List.map_cons, List.foldr_cons, ih, h1, h2]

theorem claimElimDepth_eq (ms : List Match) (p : PlayerID) :
    claimElimDepth ms p = seElimRoundOf ms p := by
  unfold claimElimDepth seElimRoundOf
  rw [← seMaxRound_eq]
  cases h : (msOf ms p).getLast? <;> simp [h]

theorem mem_assignRanks (row : SingleEliminationStandingRow)
    (l : List SingleEliminationStandingRow) (h : row ∈ assignRanks l) :
    ∃ r ∈ l, row.eliminationRound = r.eliminationRound ∧
      row.playerId = r.playerId := by
  rw [assignRanks, List.mem_mapIdx] at h
  obtain ⟨i, hi, hrow⟩ := h
  exact ⟨l[i], List.getElem_mem _, by rw [← hrow], by rw [← hrow]⟩

theorem seRowOf_elim (ms : List Match) (p : PlayerID) :
    (seRowOf ms p).eliminationRound = seElimRoundOf ms p := rfl

theorem seRowOf_injective (ms : List Match) : Function.Injective (seRowOf ms) := by
  intro p q h
  have hpq := congrArg (fun r : SingleEliminationStandingRow => r.playerId) h
  exact hpq

theorem seCmp_refl_le (e : String) (seeding : PlayerID → Option Int)
    (x : SingleEliminationStandingRow) : seCmp e seeding x x ≤ 0 := by
  unfold seCmp
  simp
  cases seeding x.playerId <;> simp

/-- On two distinct rows of the bracket (distinct players, both seeded,
seeds injective), `seCmp ≤ 0` is exactly the strict
(deeper-elimination-round, seed) lexicographic order. -/
theorem seCmp_le_iff (e : String) (seeding : PlayerID → Option Int)
    (x y : SingleEliminationStandingRow) (sx sy : Int)
    (hsx : seeding x.playerId = some sx) (hsy : seeding y.playerId = some sy)
    (hne : sx ≠ sy) :
    (seCmp e seeding x y ≤ 0 ↔
      (y.eliminationRound < x.eliminationRound ∨
        (x.eliminationRound = y.eliminationRound ∧ sx < sy))) := by
  unfold seCmp
  by_cases helim : y.eliminationRound ≠ x.eliminationRound
  · rw [if_pos helim]
    constructor
    · intro h
      left
      omega
    · intro h
      rcases h with h | h
      · omega
      · exact absurd h.1.symm helim
  · rw [if_neg helim]
    have helim' : y.eliminationRound = x.eliminationRound := by
      by_contra hc
      exact helim hc
    rw [hsx, hsy]
    simp only [if_pos hne]
    constructor
    · intro h
      right
      exact ⟨helim'.symm, by omega⟩
    · intro h
      rcases h with h | h
      · omega
      · omega

theorem seRowOf_playerId (ms : List Match) (p : PlayerID) :
    (seRowOf ms p).playerId = p := rfl

/-- C9: in single-elimination standings every row's `eliminationRound` is the
round of the player's last match, except that winning (or forfeit-winning) the
last match in the deepest round yields depth `maxRound + 1` (champion); and
when every bracket player is seeded with distinct seeds, the rows are ordered
by deeper elimination round first and then by the seeding map (lower seed
better).  In a double-loss final both finalists share the final's round as
depth, no one gets the champion depth, and the seeding orders them. -/
theorem singleElim_depth_and_order (matchList : List Match)
    (opts : ComputeSingleEliminationOptions)
    (hdom : ∀ p ∈ playersIn matchList, (opts.seeding p).isSome = true)
    (hinj : ∀ p ∈ playersIn matchList, ∀ q ∈ playersIn matchList,
      opts.seeding p = opts.seeding q → p = q) :
    (∀ row ∈ computeSingleEliminationStandings matchList opts,
      row.eliminationRound = claimElimDepth matchList row.playerId) ∧
    List.Pairwise
      (fun x y : SingleEliminationStandingRow =>
        y.eliminationRound < x.eliminationRound ∨
          (x.eliminationRound = y.eliminationRound ∧
            ∃ sx sy, opts.seeding x.playerId = some sx ∧
              opts.seeding y.playerId = some sy ∧ sx < sy))
      (computeSingleEliminationStandings matchList opts) := by
  constructor
  · intro row hrow
    unfold computeSingleEliminationStandings at hrow
    obtain ⟨r, hr, helim, hpid⟩ := mem_assignRanks row _ hrow
    have hr2 : r ∈ (playersIn matchList).map (seRowOf matchList) :=
      (jsSort_perm _ _).mem_iff.mp hr
    obtain ⟨p, _, hp⟩ := List.mem_map.mp hr2
    rw [helim, hpid, ← hp, seRowOf_elim, seRowOf_playerId, claimElimDepth_eq]
  · -- the ordering part
    have hplayers : (playersIn matchList).Nodup := jsSetOfList_nodup _
    set rows0 := (playersIn matchList).map (seRowOf matchList) with hrows0
    have hmemP : ∀ x ∈ rows0, ∃ p ∈ playersIn matchList, seRowOf matchList p = x := by
      intro x hx
      exact List.mem_map.mp hx
    have hseed : ∀ x ∈ rows0, ∃ s, opts.seeding x.playerId = some s := by
      intro x hx
      obtain ⟨p, hp, hpx⟩ := hmemP x hx
      have := hdom p hp
      rw [← hpx]
      exact Option.isSome_iff_exists.mp this
    have hdistinct : ∀ x ∈ rows0, ∀ y ∈ rows0, x ≠ y →
        ∃ sx sy, opts.seeding x.playerId = some sx ∧
          opts.seeding y.playerId = some sy ∧ sx ≠ sy := by
      intro x hx y hy hxy
      obtain ⟨p, hp, hpx⟩ := hmemP x hx
      obtain ⟨q, hq, hqy⟩ := hmemP y hy
      obtain ⟨sx, hsx⟩ := hseed x hx
      obtain ⟨sy, hsy⟩ := hseed y hy
      refine ⟨sx, sy, hsx, hsy, fun hss => hxy ?_⟩
      have hppid : x.playerId = p := by rw [← hpx]; rfl
      have hqpid : y.playerId = q := by rw [← hqy]; rfl
      have : p = q := by
        apply hinj p hp q hq
        rw [← hppid, ← hqpid, hsx, hsy, hss]
      rw [← hpx, ← hqy, this]
    set le := fun x y : SingleEliminationStandingRow =>
      seCmp opts.eventId opts.seeding x y ≤ 0 with hle
    have htot : ∀ a b, a ∈ rows0 → b ∈ rows0 → le a b ∨ le b a := by
      intro a b ha hb
      by_cases hab : a = b
      · subst hab
        exact Or.inl (seCmp_refl_le _ _ a)
      · obtain ⟨sa, sb, hsa, hsb, hss⟩ := hdistinct a ha b hb hab
        rw [hle]
        simp only
        rw [seCmp_le_iff _ _ a b sa sb hsa hsb hss,
          seCmp_le_iff _ _ b a sb sa hsb hsa (Ne.symm hss)]
        omega
    have htrans : ∀ a b c, a ∈ rows0 → b ∈ rows0 → c ∈ rows0 →
        le a b → le b c → le a c := by
      intro a b c ha hb hc hab hbc
      by_cases h1 : a = b
      · subst h1; exact hbc
      by_cases h2 : b = c
      · subst h2; exact hab
      by_cases h3 : a = c
      · subst h3; exact seCmp_refl_le _ _ a
      obtain ⟨sa, sb, hsa, hsb, hss1⟩ := hdistinct a ha b hb h1
      obtain ⟨sb2, sc, hsb2, hsc, hss2⟩ := hdistinct b hb c hc h2
      rw [hsb] at hsb2
      obtain rfl : sb = sb2 := by injection hsb2
      rw [hle] at hab hbc ⊢
      simp only at hab hbc ⊢
      rw [seCmp_le_iff _ _ a b sa sb hsa hsb hss1] at hab
      rw [seCmp_le_iff _ _ b c sb sc hsb hsc hss2] at hbc
      have hss3 : sa ≠ sc := by
        intro hcc
        obtain ⟨sa2, sc2, hsa2, hsc2, hss4⟩ := hdistinct a ha c hc h3
        rw [hsa] at hsa2
        rw [hsc] at hsc2
        injection hsa2 with e1
        injection hsc2 with e2
        omega
      rw [seCmp_le_iff _ _ a c sa sc hsa hsc hss3]
      omega
    have hsorted : (jsSort (seCmp opts.eventId opts.seeding) rows0).Pairwise le := by
      exact pairwise_insertionSort le (· ∈ rows0) htot htrans rows0 (fun x hx => hx)
    have hnd0 : rows0.Nodup := hplayers.map (seRowOf_injective matchList)
    have hnd : (jsSort (seCmp opts.eventId opts.seeding) rows0).Nodup :=
      ((jsSort_perm _ _).nodup_iff).mpr hnd0
    have hclaim : (jsSort (seCmp opts.eventId opts.seeding) rows0).Pairwise
        (fun x y : SingleEliminationStandingRow =>
          y.eliminationRound < x.eliminationRound ∨
            (x.eliminationRound = y.eliminationRound ∧
              ∃ sx sy, opts.seeding x.playerId = some sx ∧
                opts.seeding y.playerId = some sy ∧ sx < sy)) := by
      have hand := hsorted.and hnd
      refine hand.imp_of_mem ?_
      intro x y hx hy hxy
      have hx0 : x ∈ rows0 := (jsSort_perm _ _).mem_iff.mp hx
      have hy0 : y ∈ rows0 := (jsSort_perm _ _).mem_iff.mp hy
      obtain ⟨sx, sy, hsx, hsy, hss⟩ := hdistinct x hx0 y hy0 hxy.2
      have := (seCmp_le_iff opts.eventId opts.seeding x y sx sy hsx hsy hss).mp hxy.1
      rcases this with h | h
      · exact Or.inl h
      · exact Or.inr ⟨h.1, sx, sy, hsx, hsy, h.2⟩
    unfold computeSingleEliminationStandings
    rw [List.pairwise_iff_getElem] at hclaim ⊢
    intro i j hi hj hij
    have hi' : i < (jsSort (seCmp opts.eventId opts.seeding) rows0).length := by
      simpa [assignRanks] using hi
    have hj' : j < (jsSort (seCmp opts.eventId opts.seeding) rows0).length := by
      simpa [assignRanks] using hj
    have := hclaim i j hi' hj' hij
    simpa [assignRanks, List.getElem_mapIdx] using this

/-- Witness: the single-elimination claim applied to a concrete 4-player
bracket with a double-loss final and seeds 1..4. -/
theorem singleElim_depth_and_order_witness :
    (∀ row ∈ computeSingleEliminationStandings seFinalMatches seFinalOptions,
      row.eliminationRound = claimElimDepth seFinalMatches row.playerId) ∧
    List.Pairwise
      (fun x y : SingleEliminationStandingRow =>
        y.eliminationRound < x.eliminationRound ∨
          (x.eliminationRound = y.eliminationRound ∧
            ∃ sx sy, seFinalOptions.seeding x.playerId = some sx ∧
              seFinalOptions.seeding y.playerId = some sy ∧ sx < sy))
      (computeSingleEliminationStandings seFinalMatches seFinalOptions) :=
  singleElim_depth_and_order seFinalMatches seFinalOptions (by decide) (by decide)

-- ===================== C7: match validation =====================

theorem vNonEmptyStringB_iff (x : Option JsVal) :
    vNonEmptyStringB x = true ↔ ∃ s, x = some (.str s) ∧ jsTrim s ≠ "" := by
  cases x with
  | none => simp [vNonEmptyStringB]
  | some v => cases v <;> simp [vNonEmptyStringB]

theorem vNullableStringB_iff (x : Option JsVal) :
    vNullableStringB x = true ↔
      (x = some .null ∨ ∃ s, x = some (.str s) ∧ jsTrim s ≠ "") := by
  cases x with
  | none => simp [vNullableStringB, vNonEmptyStringB]
  | some v => cases v <;> simp [vNullableStringB, vNonEmptyStringB]

theorem vMatchResultB_iff (x : Option JsVal) :
    vMatchResultB x = true ↔ ∃ s, x = some (.str s) ∧ s ∈ matchResultCodes := by
  cases x with
  | none => simp [vMatchResultB]
  | some v => cases v <;> simp [vMatchResultB]

theorem roundOk_iff (x : Option JsVal) :
    (vIntB x = true ∧
      (match x with
        | some (.num (.int i)) => (i ≥ 1 : Bool)
        | _ => true) = true) ↔
      ∃ i, x = some (.num (.int i)) ∧ 1 ≤ i := by
  cases x with
  | none => simp [vIntB]
  | some v =>
    cases v with
    | num n => cases n <;> simp [vIntB]
    | str s => simp [vIntB]
    | null => simp [vIntB]
    | bool b => simp [vIntB]
    | obj => simp [vIntB]

/-- C7 (amended): `validateMatch` accepts a raw record exactly when it is
well-formed in the corrected sense: id and playerId non-blank (after trim)
strings, round an integer ≥ 1, result one of the six codes, `opponentId`
present and null exactly for a BYE — otherwise a non-blank string different
from `playerId` — and each supplied game/penalty field a non-negative
integer. -/
theorem validateMatch_iff_amended (m : RawMatch) :
    validateMatch m = true ↔ amendedWellFormedMatch m := by
  unfold validateMatch amendedWellFormedMatch
  simp only [Bool.and_eq_true]
  constructor
  · rintro ⟨⟨⟨⟨⟨⟨⟨⟨hid, hround⟩, hplayer⟩, hopp⟩, hres⟩, hmin⟩, hopts⟩, hbye⟩,
      hself⟩
    rw [if_pos ⟨hopp, hres⟩] at hbye
    rw [if_pos ⟨hplayer, hopp⟩] at hself
    obtain ⟨⟨⟨⟨⟨⟨hw1, hw2⟩, hw3⟩, hw4⟩, hw5⟩, hw6⟩, hw7⟩ := hopts
    refine ⟨(vNonEmptyStringB_iff _).mp hid, (vNonEmptyStringB_iff _).mp hplayer,
      (roundOk_iff _).mp ⟨hround, hmin⟩, (vMatchResultB_iff _).mp hres,
      (vNullableStringB_iff _).mp hopp, ?_, ?_,
      hw1, hw2, hw3, hw4, hw5, hw6, hw7⟩
    · rcases (vNullableStringB_iff _).mp hopp with h | ⟨s, hs, _⟩
      · rw [h] at hbye ⊢
        simp only [decide_eq_true_eq] at hbye
        simp [hbye]
      · rw [hs] at hbye ⊢
        simp only [ne_eq, decide_not, Bool.not_eq_eq_eq_not, Bool.not_true,
          decide_eq_false_iff_not] at hbye
        constructor
        · intro h
          exact absurd h (by simp)
        · intro h
          exact absurd h hbye
    · intro s hs
      rw [hs] at hself
      simpa using hself
  · rintro ⟨hid, hplayer, hround, hres, hopp, hbye, hself, hw1, hw2, hw3, hw4,
      hw5, hw6, hw7⟩
    have hidB := (vNonEmptyStringB_iff _).mpr hid
    have hplayerB := (vNonEmptyStringB_iff _).mpr hplayer
    have hoppB := (vNullableStringB_iff _).mpr hopp
    have hresB := (vMatchResultB_iff _).mpr hres
    have hroundB := (roundOk_iff _).mpr hround
    refine ⟨⟨⟨⟨⟨⟨⟨⟨hidB, hroundB.1⟩, hplayerB⟩, hoppB⟩, hresB⟩, hroundB.2⟩,
      ⟨⟨⟨⟨⟨⟨hw1, hw2⟩, hw3⟩, hw4⟩, hw5⟩, hw6⟩, hw7⟩⟩, ?_⟩, ?_⟩
    · rw [if_pos ⟨hoppB, hresB⟩]
      rcases hopp with h | ⟨s, hs, _⟩
      · rw [h]
        simp only [decide_eq_true_eq]
        exact hbye.mp h
      · rw [hs]
        have : m.result ≠ some (.str "BYE") := by
          intro hc
          have := hbye.mpr hc
          rw [hs] at this
          simp at this
        simp [this]
    · rw [if_pos ⟨hplayerB, hoppB⟩]
      rcases hopp with h | ⟨s, hs, _⟩
      · rw [h]
      · rw [hs]
        simpa using hself s hs

/-- C7 counterexample: a record whose `id` is the one-space string `" "` is
a non-empty string — well-formed as the claim words it — yet `validateMatch`
rejects it (the validators require strings non-empty after trimming). -/
theorem validateMatch_counterexample :
    claimWellFormedMatch blankIdRawMatch ∧ validateMatch blankIdRawMatch = false := by
  constructor
  · refine ⟨⟨" ", rfl, by decide⟩, ⟨"p", rfl, by decide⟩, ⟨1, rfl, by decide⟩,
      ⟨"BYE", rfl, by decide⟩, by simp [blankIdRawMatch], ?_, by decide⟩
    intro s hs
    simp [blankIdRawMatch] at hs
  · decide

-- ===================== Swiss pairing machinery =====================

theorem pairsFlat_nil : pairsFlat [] = [] := rfl

theorem pairsFlat_cons (p : Pairing) (l : List Pairing) :
    pairsFlat (p :: l) = p.a :: p.b :: pairsFlat l := rfl

theorem pairsFlat_append (l₁ l₂ : List Pairing) :
    pairsFlat (l₁ ++ l₂) = pairsFlat l₁ ++ pairsFlat l₂ := by
  simp [pairsFlat]

theorem length_pairsFlat (l : List Pairing) :
    (pairsFlat l).length = 2 * l.length := by
  induction l with
  | nil => rfl
  | cons p l ih => simp [pairsFlat_cons, ih]; omega

theorem nodup_getElem_not_mem_drop (l : List PlayerID) (hN : l.Nodup) (i : Nat)
    (hi : i < l.length) : l[i] ∉ l.drop (i + 1) := by
  intro hmem
  obtain ⟨j, hj, hget⟩ := List.getElem_of_mem hmem
  rw [List.getElem_drop] at hget
  have hj' : i + 1 + j < l.length := by
    rw [List.length_drop] at hj
    omega
  have hpw := List.pairwise_iff_getElem.mp hN i (i + 1 + j) hi hj' (by omega)
  exact hpw hget.symm

/-- Soundness of the candidate loop: a successful `tryCands` call committed to
one of its candidates and then succeeded through `next`. -/
theorem tryCands_sound
    (next : Nat → List PlayerID → List Pairing →
      Option (List PlayerID × List Pairing) × Nat)
    (P : List PlayerID → List Pairing → List PlayerID × List Pairing → Prop)
    (hnext : ∀ s u c r s', next s u c = (some r, s') → P u c r)
    (a : PlayerID) (used : List PlayerID) (chosen : List Pairing) :
    ∀ (cands : List PlayerID) (s : Nat) (r : List PlayerID × List Pairing)
      (s' : Nat),
      tryCands next a used chosen cands s = (some r, s') →
      ∃ b ∈ cands, P (used ++ [a, b]) (chosen ++ [⟨a, b⟩]) r := by
  intro cands
  induction cands with
  | nil =>
    intro s r s' h
    simp [tryCands] at h
  | cons b rest ih =>
    intro s r s' h
    rw [tryCands] at h
    rcases hn : next s (used ++ [a, b]) (chosen ++ [⟨a, b⟩]) with ⟨o, s2⟩
    rw [hn] at h
    cases o with
    | some r2 =>
      have h1 : some r2 = some r := congrArg Prod.fst h
      have hr : r2 = r := by injection h1
      subst hr
      exact ⟨b, List.mem_cons_self b rest, hnext _ _ _ _ _ hn⟩
    | none =>
      obtain ⟨b2, hb2, hP⟩ := ih s2 r s' h
      exact ⟨b2, List.mem_cons_of_mem _ hb2, hP⟩

/-- What a successful DFS run adds: the new pairings extend `chosen`, their
members extend `used` in lockstep, every member comes from the bag, and — for
a duplicate-free bag — the new members are pairwise distinct and fresh. -/
theorem dfsGo_sound (env : DfsEnv) :
    ∀ (rem startIdx steps : Nat) (used : List PlayerID) (chosen : List Pairing)
      (u' : List PlayerID) (c' : List Pairing) (s' : Nat),
      dfsGo env rem startIdx steps used chosen = (some (u', c'), s') →
      ∃ Δ, c' = chosen ++ Δ ∧ u' = used ++ pairsFlat Δ ∧
        (∀ pr ∈ Δ, pr.a ∈ env.ids ∧ pr.b ∈ env.ids) ∧
        (env.ids.Nodup →
          (pairsFlat Δ).Nodup ∧ ∀ x ∈ pairsFlat Δ, x ∉ used) := by
  intro rem
  induction rem with
  | zero =>
    intro startIdx steps used chosen u' c' s' h
    rw [dfsGo] at h
    split at h
    · exact absurd h (by simp)
    · injection h with h1 _
      injection h1 with h1
      injection h1 with hu hc
      exact ⟨[], hc ▸ by simp, hu ▸ by simp [pairsFlat], by simp,
        fun _ => by simp [pairsFlat]⟩
  | succ rem ih =>
    intro startIdx steps used chosen u' c' s' h
    rw [dfsGo] at h
    split at h
    · exact absurd h (by simp)
    · rcases hga : env.ids[startIdx]? with _ | a
      · rw [hga] at h
        injection h with h1 _
        injection h1 with h1
        injection h1 with hu hc
        exact ⟨[], hc ▸ by simp, hu ▸ by simp [pairsFlat], by simp,
          fun _ => by simp [pairsFlat]⟩
      · rw [hga] at h
        simp only at h
        by_cases hu : a ∈ used
        · rw [if_pos hu] at h
          exact ih (startIdx + 1) (steps + 1) used chosen u' c' s' h
        · rw [if_neg hu] at h
          split at h
          · exact absurd h (by simp)
          · -- the candidate loop case
            obtain ⟨b, hbmem, hP⟩ := tryCands_sound _
              (fun u c r =>
                ∃ Δ, r.2 = c ++ Δ ∧ r.1 = u ++ pairsFlat Δ ∧
                  (∀ pr ∈ Δ, pr.a ∈ env.ids ∧ pr.b ∈ env.ids) ∧
                  (env.ids.Nodup →
                    (pairsFlat Δ).Nodup ∧ ∀ x ∈ pairsFlat Δ, x ∉ u))
              (fun s u c r s2 hn => by
                obtain ⟨Δ, h1, h2, h3, h4⟩ := ih (startIdx + 1) s u c r.1 r.2 s2
                  (by rw [← hn])
                exact ⟨Δ, h1, h2, h3, h4⟩)
              a used chosen _ _ (u', c') s' h
            obtain ⟨Δ', hc', hu', hmem', hnd'⟩ := hP
            have hbmem0 : b ∈ (if ((env.ids.drop (startIdx + 1)).filter
                (· ∉ used)).filter (fun b => !env.pw a b) ≠ [] then
                  ((env.ids.drop (startIdx + 1)).filter (· ∉ used)).filter
                    (fun b => !env.pw a b)
                else if env.allow then
                  ((env.ids.drop (startIdx + 1)).filter (· ∉ used)).filter
                    (fun b => env.pw a b)
                else []) :=
              (jsSort_perm _ _).mem_iff.mp hbmem
            have hbavail : b ∈ (env.ids.drop (startIdx + 1)).filter (· ∉ used) := by
              by_cases hc1 : ((env.ids.drop (startIdx + 1)).filter
                  (· ∉ used)).filter (fun b => !env.pw a b) ≠ []
              · rw [if_pos hc1] at hbmem0
                exact List.mem_of_mem_filter hbmem0
              · rw [if_neg hc1] at hbmem0
                by_cases hc2 : env.allow
                · rw [if_pos hc2] at hbmem0
                  exact List.mem_of_mem_filter hbmem0
                · rw [if_neg hc2] at hbmem0
                  exact absurd hbmem0 (List.not_mem_nil b)
            have hbids : b ∈ env.ids :=
              List.mem_of_mem_drop (List.mem_of_mem_filter hbavail)
            have hbused : b ∉ used := by
              have := List.of_mem_filter hbavail
              simpa using this
            have hlt : startIdx < env.ids.length := by
              by_contra hcc
              rw [List.getElem?_eq_none (by omega)] at hga
              exact absurd hga (by simp)
            have hgete : env.ids.get ⟨startIdx, hlt⟩ = a := by
              rw [List.getElem?_eq_getElem hlt] at hga
              injection hga
            have haids : a ∈ env.ids := by
              rw [← hgete]
              exact List.get_mem env.ids startIdx hlt
            refine ⟨⟨a, b⟩ :: Δ', by simpa [List.append_assoc] using hc',
              by simpa [pairsFlat_cons, List.append_assoc] using hu', ?_, ?_⟩
            · intro pr hpr
              rcases List.mem_cons.mp hpr with hh | hh
              · rw [hh]
                exact ⟨haids, hbids⟩
              · exact hmem' pr hh
            · intro hN
              obtain ⟨hnd'', hfresh⟩ := hnd' hN
              have hab : a ≠ b := by
                intro hcc
                have hdrop : b ∈ env.ids.drop (startIdx + 1) :=
                  List.mem_of_mem_filter hbavail
                refine nodup_getElem_not_mem_drop env.ids hN startIdx hlt ?_
                show env.ids.get ⟨startIdx, hlt⟩ ∈ env.ids.drop (startIdx + 1)
                rw [hgete, hcc]
                exact hdrop
              have hanotin : a ∉ pairsFlat Δ' := by
                intro hcc
                have := hfresh a hcc
                simp at this
              have hbnotin : b ∉ pairsFlat Δ' := by
                intro hcc
                have := hfresh b hcc
                simp at this
              constructor
              · rw [pairsFlat_cons]
                refine List.Nodup.cons ?_ (List.Nodup.cons hbnotin hnd'')
                intro hcc
                rcases List.mem_cons.mp hcc with hh | hh
                · exact hab hh
                · exact hanotin hh
              · intro x hx
                rw [pairsFlat_cons] at hx
                rcases List.mem_cons.mp hx with hh | hh
                · rw [hh]; exact hu
                · rcases List.mem_cons.mp hh with hh2 | hh2
                  · rw [hh2]; exact hbused
                  · intro hcc
                    have := hfresh x hh2
                    simp [hcc] at this

theorem pairsFlat_mem_of {Δ : List Pairing} {ids : List PlayerID}
    (hmem : ∀ pr ∈ Δ, pr.a ∈ ids ∧ pr.b ∈ ids) :
    ∀ x ∈ pairsFlat Δ, x ∈ ids := by
  intro x hx
  obtain ⟨pr, hpr, hxpr⟩ := List.mem_flatMap.mp hx
  have := hmem pr hpr
  rcases List.mem_cons.mp hxpr with h | h
  · rw [h]; exact this.1
  · rw [List.mem_singleton.mp h]; exact this.2

/-- One DFS pass: its chosen pairings draw from the bag and, for a
duplicate-free bag, are duplicate-free; leftovers also come from the bag. -/
theorem runPass_sound (ids : List PlayerID) (allow : Bool) (maxB : Int)
    (pw : PlayerID → PlayerID → Bool) (dfc : PlayerID → Int)
    (sk : PlayerID → Nat) :
    (∀ x ∈ pairsFlat (runPass ids allow maxB pw dfc sk).chosen, x ∈ ids) ∧
    (ids.Nodup → (pairsFlat (runPass ids allow maxB pw dfc sk).chosen).Nodup) ∧
    (∀ x ∈ (runPass ids allow maxB pw dfc sk).leftovers, x ∈ ids) := by
  unfold runPass
  rcases hd : dfsGo ⟨ids, allow, maxB, pw, dfc, sk⟩ ids.length 0 0 [] []
    with ⟨o, s⟩
  cases o with
  | none =>
    simp only
    exact ⟨by simp [pairsFlat], fun _ => by simp [pairsFlat], fun x hx => hx⟩
  | some uc =>
    rcases uc with ⟨u2, c2⟩
    obtain ⟨Δ, hc, _, hmem, hnd⟩ := dfsGo_sound _ _ _ _ _ _ _ _ _ hd
    rw [List.nil_append] at hc
    subst hc
    simp only
    refine ⟨pairsFlat_mem_of hmem, fun hN => (hnd hN).1, ?_⟩
    intro x hx
    exact List.mem_of_mem_filter hx

/-- `pairBag` returns one of the two passes, so the same facts hold of it. -/
theorem pairBag_eq (ids : List PlayerID) (maxB : Int)
    (pw : PlayerID → PlayerID → Bool) (dfc : PlayerID → Int)
    (sk : PlayerID → Nat) :
    pairBag ids maxB pw dfc sk =
      if (runPass ids false maxB pw dfc sk).ok = true ∧
          (runPass ids false maxB pw dfc sk).leftovers = [] then
        runPass ids false maxB pw dfc sk
      else runPass ids true maxB pw dfc sk := rfl

theorem pairBag_sound (ids : List PlayerID) (maxB : Int)
    (pw : PlayerID → PlayerID → Bool) (dfc : PlayerID → Int)
    (sk : PlayerID → Nat) :
    (∀ x ∈ pairsFlat (pairBag ids maxB pw dfc sk).chosen, x ∈ ids) ∧
    (ids.Nodup → (pairsFlat (pairBag ids maxB pw dfc sk).chosen).Nodup) ∧
    (∀ x ∈ (pairBag ids maxB pw dfc sk).leftovers, x ∈ ids) := by
  rw [pairBag_eq]
  split
  · exact runPass_sound ids false maxB pw dfc sk
  · exact runPass_sound ids true maxB pw dfc sk

theorem commitChosen_pairings :
    ∀ (chosen : List Pairing) (st : SwissState),
      (commitChosen chosen st).pairings = st.pairings ++ chosen := by
  intro chosen
  induction chosen with
  | nil => intro st; simp [commitChosen]
  | cons p l ih =>
    intro st
    show (commitChosen l _).pairings = _
    rw [ih]
    simp

theorem commitChosen_unpaired_subset :
    ∀ (chosen : List Pairing) (st : SwissState) (x : PlayerID),
      x ∈ (commitChosen chosen st).unpaired → x ∈ st.unpaired := by
  intro chosen
  induction chosen with
  | nil => intro st x hx; exact hx
  | cons p l ih =>
    intro st x hx
    have := ih _ x hx
    exact List.mem_of_mem_erase (List.mem_of_mem_erase this)

/-- Committing pairings removes exactly their members from the unpaired pool
(as a multiset) and keeps it duplicate-free. -/
theorem commitChosen_multiset :
    ∀ (chosen : List Pairing) (st : SwissState),
      (∀ x ∈ pairsFlat chosen, x ∈ st.unpaired) → (pairsFlat chosen).Nodup →
      st.unpaired.Nodup →
      ((commitChosen chosen st).unpaired : Multiset PlayerID) +
          (pairsFlat chosen : Multiset PlayerID) = (st.unpaired : Multiset PlayerID) ∧
        (commitChosen chosen st).unpaired.Nodup := by
  intro chosen
  induction chosen with
  | nil =>
    intro st _ _ hU
    simp [commitChosen, pairsFlat]
    exact hU
  | cons p l ih =>
    intro st hmem hnd hU
    have hpa : p.a ∈ st.unpaired := hmem p.a (by simp [pairsFlat_cons])
    have hpb : p.b ∈ st.unpaired := hmem p.b (by simp [pairsFlat_cons])
    rw [pairsFlat_cons] at hnd
    have hab : p.a ≠ p.b := by
      intro hcc
      exact (List.nodup_cons.mp hnd).1 (by simp [hcc])
    have hanotl : p.a ∉ pairsFlat l := by
      intro hcc
      exact (List.nodup_cons.mp hnd).1 (by simp [hcc])
    have hbnotl : p.b ∉ pairsFlat l :=
      (List.nodup_cons.mp (List.nodup_cons.mp hnd).2).1
    have hndl : (pairsFlat l).Nodup :=
      (List.nodup_cons.mp (List.nodup_cons.mp hnd).2).2
    set st1 : SwissState :=
      { st with
        pairings := st.pairings ++ [p]
        unpaired := (st.unpaired.erase p.a).erase p.b
        rematchesUsed :=
          if st.pw p.a p.b then st.rematchesUsed ++ [p] else st.rematchesUsed
        pw := addPlayed (addPlayed st.pw p.a p.b) p.b p.a } with hst1
    have hstep : commitChosen (p :: l) st = commitChosen l st1 := rfl
    have hU1 : st1.unpaired.Nodup := (hU.erase p.a).erase p.b
    have hbmem' : p.b ∈ st.unpaired.erase p.a :=
      (List.Nodup.mem_erase_iff hU).mpr ⟨Ne.symm hab, hpb⟩
    have hmem1 : ∀ x ∈ pairsFlat l, x ∈ st1.unpaired := by
      intro x hx
      have hxa : x ≠ p.a := fun hcc => hanotl (hcc ▸ hx)
      have hxb : x ≠ p.b := fun hcc => hbnotl (hcc ▸ hx)
      show x ∈ (st.unpaired.erase p.a).erase p.b
      exact (List.Nodup.mem_erase_iff (hU.erase p.a)).mpr
        ⟨hxb, (List.Nodup.mem_erase_iff hU).mpr ⟨hxa, hmem x (by
          rw [pairsFlat_cons]
          simp [hx])⟩⟩
    obtain ⟨hms, hnd1⟩ := ih st1 hmem1 hndl hU1
    rw [hstep]
    refine ⟨?_, hnd1⟩
    rw [pairsFlat_cons]
    have hcoe1 : (st1.unpaired : Multiset PlayerID) =
        ((st.unpaired : Multiset PlayerID).erase p.a).erase p.b := by
      show (((st.unpaired.erase p.a).erase p.b : List PlayerID) :
        Multiset PlayerID) = _
      rw [Multiset.coe_erase, Multiset.coe_erase]
    have h1 : p.b ∈ ((st.unpaired : Multiset PlayerID)).erase p.a := by
      rw [Multiset.coe_erase]
      exact hbmem'
    have h2 : p.a ∈ (st.unpaired : Multiset PlayerID) := hpa
    rw [← Multiset.cons_coe, ← Multiset.cons_coe, Multiset.add_cons,
      Multiset.add_cons, hms, hcoe1, Multiset.cons_erase h1,
      Multiset.cons_erase h2]

theorem orElse_getLast_mem {l1 l2 : List PlayerID} {pick : PlayerID}
    (h : (l1.getLast?.orElse fun _ => l2.getLast?) = some pick) :
    pick ∈ l1 ∨ pick ∈ l2 := by
  rcases ho : l1.getLast? with _ | q
  · rw [ho, Option.orElse.eq_def] at h
    simp only at h
    exact Or.inr (List.mem_of_mem_getLast? h)
  · rw [ho, Option.orElse.eq_def] at h
    simp only at h
    injection h with hq
    exact Or.inl (hq ▸ List.mem_of_mem_getLast? ho)

/-- The downfloat loop: its final result pairs players of the original local
bag without duplicates, and the pending groups it returns keep their filtered
member lists duplicate-free and pairwise disjoint. -/
theorem downfloatLoop_sound (protectTopN : Int) (sIdx : PlayerID → Int)
    (maxB : Int) (pw : PlayerID → PlayerID → Bool) (sk : PlayerID → Nat)
    (U : List PlayerID) :
    ∀ (fuel : Nat) (ids : List PlayerID) (result : BagResult)
      (pending : List WorkGroup) (dfc : PlayerID → Int),
      ids.Nodup → (∀ x ∈ ids, x ∈ U) →
      (∀ g ∈ pending, ∀ x ∈ ids, x ∉ g.ids.filter (· ∈ U)) →
      (∀ g ∈ pending, (g.ids.filter (· ∈ U)).Nodup) →
      ((pending.map fun g => g.ids.filter (· ∈ U)).Pairwise List.Disjoint) →
      (∀ x ∈ pairsFlat result.chosen, x ∈ ids) →
      (pairsFlat result.chosen).Nodup →
      (∀ x ∈ result.leftovers, x ∈ ids) →
      (∀ x ∈ pairsFlat (downfloatLoop protectTopN sIdx maxB pw sk fuel ids
          result pending dfc).1.chosen, x ∈ ids) ∧
      (pairsFlat (downfloatLoop protectTopN sIdx maxB pw sk fuel ids result
          pending dfc).1.chosen).Nodup ∧
      (∀ g ∈ (downfloatLoop protectTopN sIdx maxB pw sk fuel ids result
          pending dfc).2.1, (g.ids.filter (· ∈ U)).Nodup) ∧
      (((downfloatLoop protectTopN sIdx maxB pw sk fuel ids result pending
          dfc).2.1.map fun g => g.ids.filter (· ∈ U)).Pairwise List.Disjoint) := by
  intro fuel
  induction fuel with
  | zero =>
    intro ids result pending dfc _ _ _ hbnd hbpw hcm hcn _
    exact ⟨hcm, hcn, hbnd, hbpw⟩
  | succ fuel ih =>
    intro ids result pending dfc hnd hidsU hdisj hbnd hbpw hcm hcn hlm
    rw [downfloatLoop]
    by_cases hempty : result.leftovers = []
    · rw [if_pos hempty]
      exact ⟨hcm, hcn, hbnd, hbpw⟩
    · rw [if_neg hempty]
      rcases hpick : ((result.leftovers.filter fun id =>
          if protectTopN > 0 then decide (sIdx id ≥ protectTopN)
          else true).getLast?.orElse
            (fun _ => result.leftovers.getLast?)) with _ | pick
      · simp only [hpick]
        exact ⟨hcm, hcn, hbnd, hbpw⟩
      · simp only [hpick]
        have hpickids : pick ∈ ids := by
          rcases orElse_getLast_mem hpick with hc | hc
          · exact hlm pick (List.mem_of_mem_filter hc)
          · exact hlm pick hc
        have hpickU : pick ∈ U := hidsU pick hpickids
        set ids' := ids.filter (· ≠ pick) with hids'
        have hnd' : ids'.Nodup := List.Nodup.filter _ hnd
        have hidsU' : ∀ x ∈ ids', x ∈ U := fun x hx =>
          hidsU x (List.mem_of_mem_filter hx)
        have hids'sub : ∀ x ∈ ids', x ∈ ids := fun x hx =>
          List.mem_of_mem_filter hx
        have hids'ne : ∀ x ∈ ids', x ≠ pick := by
          intro x hx
          have := List.of_mem_filter hx
          simpa using this
        set pending' := pushDownfloat pending pick with hpending'
        have hdisj' : ∀ g ∈ pending', ∀ x ∈ ids', x ∉ g.ids.filter (· ∈ U) := by
          intro g hg x hx
          cases pending with
          | nil =>
            simp only [hpending', pushDownfloat] at hg
            obtain rfl := List.mem_singleton.mp hg
            intro hmm
            have hxp := List.mem_of_mem_filter hmm
            exact hids'ne x hx (List.mem_singleton.mp hxp)
          | cons g0 gs =>
            simp only [hpending', pushDownfloat] at hg
            rcases List.mem_cons.mp hg with hcase | hcase
            · subst hcase
              simp only [List.filter_append]
              intro hmm
              rcases List.mem_append.mp hmm with hmm | hmm
              · exact hdisj g0 (by simp) x (hids'sub x hx) hmm
              · have hxp := List.mem_of_mem_filter hmm
                exact hids'ne x hx (List.mem_singleton.mp hxp)
            · exact hdisj _ (by simp [hcase]) x (hids'sub x hx)
        have hbnd' : ∀ g ∈ pending', (g.ids.filter (· ∈ U)).Nodup := by
          intro g hg
          cases pending with
          | nil =>
            simp only [hpending', pushDownfloat] at hg
            obtain rfl := List.mem_singleton.mp hg
            exact ((List.filter_sublist _).nodup) (List.nodup_singleton pick)
          | cons g0 gs =>
            simp only [hpending', pushDownfloat] at hg
            rcases List.mem_cons.mp hg with hcase | hcase
            · subst hcase
              simp only [List.filter_append]
              rw [List.nodup_append]
              refine ⟨hbnd g0 (by simp),
                (List.filter_sublist _).nodup (List.nodup_singleton pick), ?_⟩
              intro x hx1 hx2
              have hxp := List.mem_of_mem_filter hx2
              obtain rfl := List.mem_singleton.mp hxp
              exact hdisj g0 (by simp) x hpickids hx1
            · exact hbnd _ (by simp [hcase])
        have hbpw' : ((pending'.map fun g => g.ids.filter (· ∈ U)).Pairwise
            List.Disjoint) := by
          cases pending with
          | nil =>
            rw [hpending']
            show ((pushDownfloat [] pick).map fun g =>
              g.ids.filter (· ∈ U)).Pairwise List.Disjoint
            simp [pushDownfloat]
          | cons g0 gs =>
            rw [hpending']
            show ((pushDownfloat (g0 :: gs) pick).map fun g =>
              g.ids.filter (· ∈ U)).Pairwise List.Disjoint
            simp only [pushDownfloat, List.map_cons]
            rw [List.pairwise_cons]
            rw [List.map_cons, List.pairwise_cons] at hbpw
            refine ⟨?_, hbpw.2⟩
            intro fl hfl
            obtain ⟨g, hg, hgfl⟩ := List.mem_map.mp hfl
            simp only [List.filter_append]
            intro x hx hxfl
            rcases List.mem_append.mp hx with hx | hx
            · exact hbpw.1 fl hfl hx hxfl
            · have hxp := List.mem_of_mem_filter hx
              obtain rfl := List.mem_singleton.mp hxp
              rw [← hgfl] at hxfl
              exact hdisj g (by simp [hg]) x hpickids hxfl
        obtain ⟨hcm', hcn', hlm'⟩ :=
          pairBag_sound ids' maxB pw (bumpDfc dfc pick) sk
        by_cases hdone : (pairBag ids' maxB pw (bumpDfc dfc pick) sk).ok =
            true ∧ (pairBag ids' maxB pw (bumpDfc dfc pick) sk).leftovers = []
        · rw [if_pos hdone]
          exact ⟨fun x hx => hids'sub x (hcm' x hx), hcn' hnd', hbnd', hbpw'⟩
        · rw [if_neg hdone]
          by_cases hviable : (result.leftovers.filter fun id =>
              if protectTopN > 0 then decide (sIdx id ≥ protectTopN)
              else true) = []
          · rw [if_pos hviable]
            exact ⟨fun x hx => hids'sub x (hcm' x hx), hcn' hnd', hbnd', hbpw'⟩
          · rw [if_neg hviable]
            obtain ⟨ha, hb, hc, hd⟩ := ih ids'
              (pairBag ids' maxB pw (bumpDfc dfc pick) sk) pending'
              (bumpDfc dfc pick) hnd' hidsU' hdisj' hbnd' hbpw' hcm'
              (hcn' hnd') hlm'
            exact ⟨fun x hx => hids'sub x (ha x hx), hb, hc, hd⟩

/-- The group loop conserves the unpaired pool as a multiset: whatever ends
up committed as new pairings was removed from `unpaired`, exactly once each,
and the pool stays duplicate-free. -/
theorem groupLoop_sound (protectTopN : Int) (sIdx : PlayerID → Int)
    (maxB : Int) (sk : PlayerID → Nat) :
    ∀ (fuel : Nat) (pending : List WorkGroup) (st st' : SwissState),
      st.unpaired.Nodup →
      (∀ g ∈ pending, (g.ids.filter (· ∈ st.unpaired)).Nodup) →
      ((pending.map fun g => g.ids.filter (· ∈ st.unpaired)).Pairwise
        List.Disjoint) →
      groupLoop protectTopN sIdx maxB sk fuel pending st = some st' →
      ∃ newPairs, st'.pairings = st.pairings ++ newPairs ∧
        (st'.unpaired : Multiset PlayerID) + ↑(pairsFlat newPairs) =
          ↑st.unpaired ∧
        st'.unpaired.Nodup := by
  intro fuel
  induction fuel with
  | zero =>
    intro pending st st' _ _ _ h
    exact absurd h (by simp [groupLoop])
  | succ fuel ih =>
    intro pending st st' hU hbnd hbpw hrun
    cases pending with
    | nil =>
      rw [groupLoop] at hrun
      injection hrun with hst
      subst hst
      exact ⟨[], by simp, by simp [pairsFlat], hU⟩
    | cons g rest =>
      rw [groupLoop] at hrun
      by_cases h0 : g.ids.filter (· ∈ st.unpaired) = []
      · rw [if_pos h0] at hrun
        exact ih rest st st' hU (fun g' hg' => hbnd g' (by simp [hg']))
          ((List.pairwise_cons.mp hbpw).2) hrun
      · rw [if_neg h0] at hrun
        set ids0 := g.ids.filter (· ∈ st.unpaired) with hids0
        have hids0nd : ids0.Nodup := hbnd g (by simp)
        have hids0U : ∀ x ∈ ids0, x ∈ st.unpaired := by
          intro x hx
          have := List.of_mem_filter hx
          simpa using this
        have hdisj0 : ∀ g' ∈ rest, ∀ x ∈ ids0,
            x ∉ g'.ids.filter (· ∈ st.unpaired) := by
          intro g' hg' x hx hx2
          have hpw1 := (List.pairwise_cons.mp (by
            rw [List.map_cons] at hbpw
            exact hbpw)).1
          exact hpw1 (g'.ids.filter (· ∈ st.unpaired))
            (List.mem_map.mpr ⟨g', hg', rfl⟩) hx hx2
        obtain ⟨hcm0, hcn0, hlm0⟩ := pairBag_sound ids0 maxB st.pw st.dfc sk
        simp only [] at hrun
        rcases hd : downfloatLoop protectTopN sIdx maxB st.pw sk
            (ids0.length + 1) ids0 (pairBag ids0 maxB st.pw st.dfc sk) rest
            st.dfc with ⟨res, pend2, dfc2⟩
        rw [hd] at hrun
        obtain ⟨hAm, hAn, hBnd, hBpw⟩ := downfloatLoop_sound protectTopN sIdx
          maxB st.pw sk st.unpaired (ids0.length + 1) ids0
          (pairBag ids0 maxB st.pw st.dfc sk) rest st.dfc hids0nd hids0U
          hdisj0 (fun g' hg' => hbnd g' (by simp [hg']))
          ((List.pairwise_cons.mp hbpw).2) hcm0 (hcn0 hids0nd) hlm0
        rw [hd] at hAm hAn hBnd hBpw
        simp only at hAm hAn hBnd hBpw hrun
        set stMid : SwissState := { st with dfc := dfc2 } with hstMid
        have hUMid : stMid.unpaired = st.unpaired := rfl
        have hPMid : stMid.pairings = st.pairings := rfl
        obtain ⟨hms1, hnd1⟩ := commitChosen_multiset res.chosen stMid
          (by rw [hUMid]; exact fun x hx => hids0U x (hAm x hx)) hAn
          (by rw [hUMid]; exact hU)
        set st1 := commitChosen res.chosen stMid with hst1
        have hsub1 : ∀ x ∈ st1.unpaired, x ∈ st.unpaired := by
          intro x hx
          rw [← hUMid]
          exact commitChosen_unpaired_subset res.chosen stMid x hx
        have hmono : ∀ (l : List PlayerID),
            (l.filter (· ∈ st1.unpaired)).Sublist
              (l.filter (· ∈ st.unpaired)) := by
          intro l
          apply List.monotone_filter_right
          intro a ha
          simp only [decide_eq_true_eq] at ha ⊢
          exact hsub1 a ha
        have hbnd2 : ∀ g' ∈ pend2, (g'.ids.filter (· ∈ st1.unpaired)).Nodup :=
          fun g' hg' => (hmono g'.ids).nodup (hBnd g' hg')
        have hbpw2 : ((pend2.map fun g' => g'.ids.filter
            (· ∈ st1.unpaired)).Pairwise List.Disjoint) := by
          rw [List.pairwise_map] at hBpw ⊢
          refine hBpw.imp ?_
          intro g1 g2 hdis x hx1 hx2
          exact hdis ((hmono g1.ids).mem hx1) ((hmono g2.ids).mem hx2)
        obtain ⟨new2, hpair2, hms2, hnd2⟩ := ih pend2 st1 st'
          (by rw [hst1]; exact hnd1) hbnd2 hbpw2 hrun
        refine ⟨res.chosen ++ new2, ?_, ?_, hnd2⟩
        · rw [hpair2, hst1, commitChosen_pairings, hPMid, List.append_assoc]
        · rw [pairsFlat_append, ← Multiset.coe_add]
          calc (st'.unpaired : Multiset PlayerID) +
              ((pairsFlat res.chosen : Multiset PlayerID) + ↑(pairsFlat new2))
              = ((st'.unpaired : Multiset PlayerID) + ↑(pairsFlat new2)) +
                ↑(pairsFlat res.chosen) := by abel
            _ = (st1.unpaired : Multiset PlayerID) +
                ↑(pairsFlat res.chosen) := by rw [hms2]
            _ = ↑st.unpaired := by
                rw [← hUMid]
                exact hms1

theorem perm_getElem_cons_eraseIdx :
    ∀ (l : List PlayerID) (i : ℕ) (h : i < l.length),
      List.Perm l (l[i] :: l.eraseIdx i) := by
  intro l
  induction l with
  | nil => intro i h; simp at h
  | cons x xs ih =>
    intro i h
    cases i with
    | zero => simp
    | succ i =>
      have hi : i < xs.length := by
        simpa using h
      have hstep := ih i hi
      have h1 : List.Perm (x :: xs) (x :: xs[i] :: xs.eraseIdx i) := hstep.cons x
      have h2 : List.Perm (x :: xs[i] :: xs.eraseIdx i)
          (xs[i] :: x :: xs.eraseIdx i) := List.Perm.swap _ _ _
      exact h1.trans h2

/-- The greedy leftover pass pairs off the whole (even, duplicate-free) list
and empties the unpaired pool. -/
theorem greedyLoop_sound (avoid : Bool) :
    ∀ (fuel : Nat) (ids : List PlayerID) (st : SwissState),
      ids.Nodup → (↑ids : Multiset PlayerID) = ↑st.unpaired →
      ids.length % 2 = 0 → ids.length ≤ fuel →
      ∃ newPairs,
        (greedyLoop avoid fuel ids st).pairings = st.pairings ++ newPairs ∧
        (↑(pairsFlat newPairs) : Multiset PlayerID) = ↑ids ∧
        (greedyLoop avoid fuel ids st).unpaired = [] := by
  intro fuel
  induction fuel with
  | zero =>
    intro ids st _ hperm hlen hfuel
    have : ids = [] := List.length_eq_zero.mp (by omega)
    subst this
    refine ⟨[], by simp [greedyLoop], by simp [pairsFlat], ?_⟩
    show st.unpaired = []
    have := hperm.symm
    rw [show ((([] : List PlayerID) : Multiset PlayerID)) = 0 from rfl] at this
    exact (Multiset.coe_eq_zero _).mp this
  | succ fuel ih =>
    intro ids st hnd hperm hlen hfuel
    match ids, hnd, hperm, hlen, hfuel with
    | [], _, hperm, _, _ =>
      refine ⟨[], by simp [greedyLoop], by simp [pairsFlat], ?_⟩
      show st.unpaired = []
      have := hperm.symm
      rw [show ((([] : List PlayerID) : Multiset PlayerID)) = 0 from rfl] at this
      exact (Multiset.coe_eq_zero _).mp this
    | [a], _, _, hlen, _ => simp at hlen
    | a :: b0 :: tl, hnd, hperm, hlen, hfuel =>
      set rest := b0 :: tl with hrest
      have hrestlen : 0 < rest.length := by simp [hrest]
      have hbIdx : ((rest.findIdx? fun b =>
          ¬ (avoid ∧ st.pw a b)).getD 0) < rest.length := by
        rcases hf : rest.findIdx? fun b => ¬ (avoid ∧ st.pw a b) with _ | i
        · simpa using hrestlen
        · have := List.findIdx?_eq_some_iff_findIdx_eq.mp hf
          simpa using this.1
      set bIdx := ((rest.findIdx? fun b => ¬ (avoid ∧ st.pw a b)).getD 0)
        with hbIdxDef
      have hgb : rest[bIdx]? = some rest[bIdx] := List.getElem?_eq_getElem hbIdx
      set b := rest[bIdx] with hb
      have hbmem : b ∈ rest := List.getElem_mem hbIdx
      have hstep : greedyLoop avoid (fuel + 1) (a :: b0 :: tl) st =
          greedyLoop avoid fuel (rest.eraseIdx bIdx)
            (commitChosen [⟨a, b⟩] st) := by
        rw [greedyLoop]
        rw [← hrest, ← hbIdxDef, hgb]
      have hrestperm : List.Perm rest (b :: rest.eraseIdx bIdx) :=
        perm_getElem_cons_eraseIdx rest bIdx hbIdx
      have hndrest : rest.Nodup := (List.nodup_cons.mp hnd).2
      have hnd' : (rest.eraseIdx bIdx).Nodup :=
        (List.eraseIdx_sublist rest bIdx).nodup hndrest
      have hanotr : a ∉ rest := (List.nodup_cons.mp hnd).1
      have hab : a ≠ b := fun hcc => hanotr (hcc ▸ hbmem)
      have hamem : a ∈ st.unpaired := by
        have : a ∈ (↑st.unpaired : Multiset PlayerID) := by
          rw [← hperm]
          simp
        simpa using this
      have hbmemU : b ∈ st.unpaired := by
        have : b ∈ (↑st.unpaired : Multiset PlayerID) := by
          rw [← hperm]
          simp [hbmem]
        simpa using this
      have hcommit_unpaired : (commitChosen [⟨a, b⟩] st).unpaired =
          (st.unpaired.erase a).erase b := rfl
      have hcommit_pairings : (commitChosen [⟨a, b⟩] st).pairings =
          st.pairings ++ [⟨a, b⟩] := commitChosen_pairings [⟨a, b⟩] st
      have hperm' : (↑(rest.eraseIdx bIdx) : Multiset PlayerID) =
          ↑(commitChosen [⟨a, b⟩] st).unpaired := by
        rw [hcommit_unpaired]
        have h1 : (↑((st.unpaired.erase a).erase b) : Multiset PlayerID) =
            ((↑st.unpaired : Multiset PlayerID).erase a).erase b := by
          rw [Multiset.coe_erase, Multiset.coe_erase]
        rw [h1, ← hperm]
        have h2 : (↑(a :: rest) : Multiset PlayerID) = a ::ₘ ↑rest := by
          rw [Multiset.cons_coe]
        rw [show ((↑(a :: b0 :: tl) : Multiset PlayerID)) = a ::ₘ ↑rest from
          (Multiset.cons_coe a rest).symm]
        rw [Multiset.erase_cons_head]
        have h3 : (↑rest : Multiset PlayerID) = b ::ₘ ↑(rest.eraseIdx bIdx) := by
          have := hrestperm
          rw [← Multiset.cons_coe]
          exact Multiset.coe_eq_coe.mpr this
        rw [h3, Multiset.erase_cons_head]
      have hlen' : (rest.eraseIdx bIdx).length % 2 = 0 := by
        have := hrestperm.length_eq
        simp only [List.length_cons] at this hlen ⊢
        omega
      have hfuel' : (rest.eraseIdx bIdx).length ≤ fuel := by
        have := hrestperm.length_eq
        simp only [List.length_cons] at this hfuel ⊢
        omega
      obtain ⟨new2, hp2, hm2, he2⟩ := ih (rest.eraseIdx bIdx)
        (commitChosen [⟨a, b⟩] st) hnd' hperm' hlen' hfuel'
      refine ⟨⟨a, b⟩ :: new2, ?_, ?_, ?_⟩
      · rw [hstep, hp2, hcommit_pairings]
        simp
      · rw [pairsFlat_cons]
        have hL : (↑(a :: b :: pairsFlat new2) : Multiset PlayerID) =
            a ::ₘ b ::ₘ ↑(pairsFlat new2) := by
          rw [← Multiset.cons_coe, ← Multiset.cons_coe]
        rw [hL, hm2]
        have hR : (↑(a :: b0 :: tl) : Multiset PlayerID) =
            a ::ₘ ↑rest := (Multiset.cons_coe a rest).symm
        rw [hR]
        congr 1
        rw [← Multiset.cons_coe]
        exact (Multiset.coe_eq_coe.mpr hrestperm).symm
      · rw [hstep]
        exact he2

theorem pairsFlat_perm {l₁ l₂ : List Pairing} (h : List.Perm l₁ l₂) :
    List.Perm (pairsFlat l₁) (pairsFlat l₂) := by
  unfold pairsFlat
  exact List.Perm.flatMap_right _ h

theorem find?_reverse_eq (p : PlayerID → Bool) (l : List PlayerID) :
    l.reverse.find? p = (l.filter p).getLast? := by
  rw [← List.filter_head? p l.reverse, List.filter_reverse, List.head?_reverse]

/-- The bye the code computes is the one the claim describes: lowest-ranked
player without a prior bye, else the absolute lowest-ranked, only for an odd
active pool. -/
theorem byeOf_eq_claimed (standings : List StandingRow) (history : List Match) :
    byeOf standings history = claimedByeRecipient standings history := by
  unfold byeOf claimedByeRecipient
  simp only []
  by_cases hpar : (playersOf standings).length % 2 = 1
  · rw [if_pos hpar, if_pos hpar, find?_reverse_eq]
    by_cases hnil :
        ((playersOf standings).filter fun p => ¬ buildByesTaken history p) = []
    · rw [hnil]
      rw [if_neg (by simp)]
      show Option.orElse none _ = _
      rw [Option.orElse.eq_def]
      simp only []
      rw [List.head?_reverse]
    · rw [if_pos hnil]
      rcases hlast : ((playersOf standings).filter fun p =>
          ¬ buildByesTaken history p).getLast? with _ | y
      · exact absurd (List.getLast?_eq_none_iff.mp hlast) hnil
      · rfl
  · rw [if_neg hpar, if_neg hpar]

theorem byeOf_mem {standings : List StandingRow} {history : List Match}
    {b : PlayerID} (h : byeOf standings history = some b) :
    b ∈ playersOf standings := by
  unfold byeOf at h
  simp only [] at h
  by_cases hpar : (playersOf standings).length % 2 = 1
  · rw [if_pos hpar] at h
    rcases hf : (playersOf standings).reverse.find? fun p =>
        ¬ buildByesTaken history p with _ | y
    · rw [hf, Option.orElse.eq_def] at h
      simp only [] at h
      exact List.mem_reverse.mp (List.mem_of_mem_head? h)
    · rw [hf, Option.orElse.eq_def] at h
      simp only [] at h
      injection h with h
      subst h
      exact List.mem_reverse.mp (List.mem_of_find?_eq_some hf)
  · rw [if_neg hpar] at h
    exact absurd h (by simp)

theorem byeOf_odd_of_some {standings : List StandingRow} {history : List Match}
    {b : PlayerID} (h : byeOf standings history = some b) :
    (playersOf standings).length % 2 = 1 := by
  by_contra hpar
  unfold byeOf at h
  simp only [] at h
  rw [if_neg hpar] at h
  exact absurd h (by simp)

theorem byeOf_none_even {standings : List StandingRow} {history : List Match}
    (h : byeOf standings history = none) :
    (playersOf standings).length % 2 = 0 := by
  by_cases hpar : (playersOf standings).length % 2 = 1
  · exfalso
    unfold byeOf at h
    simp only [] at h
    rw [if_pos hpar] at h
    have hne : playersOf standings ≠ [] := by
      intro hcc
      rw [hcc] at hpar
      simp at hpar
    rcases hf : (playersOf standings).reverse.find? fun p =>
        ¬ buildByesTaken history p with _ | y
    · rw [hf, Option.orElse.eq_def] at h
      simp only [] at h
      rw [List.head?_reverse] at h
      exact hne (List.getLast?_eq_none_iff.mp h)
    · rw [hf, Option.orElse.eq_def] at h
      simp only [] at h
      exact absurd h (by simp)
  · omega

/-- A retired row's player is not in the active pool when standings ids are
pairwise distinct. -/
theorem retired_not_mem_playersOf {standings : List StandingRow}
    {row : StandingRow} (hnd : (standings.map (·.playerId)).Nodup)
    (hrow : row ∈ standings) (hret : row.retired = true) :
    row.playerId ∉ playersOf standings := by
  intro hmem
  obtain ⟨s1, hs1, heq⟩ := List.mem_map.mp hmem
  have hs1mem : s1 ∈ standings := List.mem_of_mem_filter hs1
  have hs1act : s1.retired = false := by
    have := List.of_mem_filter hs1
    simpa using this
  have : s1 = row := List.inj_on_of_nodup_map hnd hs1mem hrow heq
  rw [this, hret] at hs1act
  exact absurd hs1act (by simp)

theorem initialWork_ids_sublist (standings : List StandingRow)
    (u0 : List PlayerID) :
    ∀ g ∈ initialWork standings u0, g.ids.Sublist (playersOf standings) := by
  intro g hg
  unfold initialWork at hg
  simp only [List.mem_map] at hg
  obtain ⟨mp, _, rfl⟩ := hg
  exact (List.filter_sublist _).trans
    ((List.filter_sublist (activeStandings standings)).map (·.playerId))

theorem initialWork_disjoint (standings : List StandingRow)
    (hnd : (playersOf standings).Nodup) (u0 : List PlayerID) :
    ((initialWork standings u0).map (·.ids)).Pairwise List.Disjoint := by
  unfold initialWork
  simp only []
  rw [List.pairwise_map, List.pairwise_map]
  have hkeys : (List.insertionSort (fun a b : ℚ => b ≤ a)
      (jsSetOfList ((activeStandings standings).map (·.matchPoints)))).Nodup :=
    ((List.perm_insertionSort _ _).symm).nodup (jsSetOfList_nodup _)
  refine hkeys.imp ?_
  intro k1 k2 hne x hx1 hx2
  obtain ⟨s1, hs1, hpid1⟩ := List.mem_map.mp (List.mem_of_mem_filter hx1)
  obtain ⟨s2, hs2, hpid2⟩ := List.mem_map.mp (List.mem_of_mem_filter hx2)
  have hs1a : s1 ∈ activeStandings standings := List.mem_of_mem_filter hs1
  have hs2a : s2 ∈ activeStandings standings := List.mem_of_mem_filter hs2
  have hk1 : s1.matchPoints = k1 := by
    have := List.of_mem_filter hs1
    simpa using this
  have hk2 : s2.matchPoints = k2 := by
    have := List.of_mem_filter hs2
    simpa using this
  have heqrow : s1 = s2 :=
    List.inj_on_of_nodup_map hnd hs1a hs2a (by rw [hpid1, hpid2])
  exact hne (by rw [← hk1, heqrow, hk2])

/-- The engine after the bye was removed: a terminating group loop followed by
the greedy pass pairs exactly the initial unpaired pool (as a multiset). -/
theorem swissEngine_pairs_all (protectTopN : Int) (sIdx : PlayerID → Int)
    (maxB : Int) (sk : PlayerID → Nat) (avoid : Bool) (fuel : Nat)
    (work : List WorkGroup) (U0 : List PlayerID)
    (pw0 : PlayerID → PlayerID → Bool) (st1 : SwissState)
    (hU0nd : U0.Nodup)
    (hbnd : ∀ g ∈ work, (g.ids.filter (· ∈ U0)).Nodup)
    (hbpw : ((work.map fun g => g.ids.filter (· ∈ U0)).Pairwise List.Disjoint))
    (heven : U0.length % 2 = 0)
    (hg : groupLoop protectTopN sIdx maxB sk fuel work
      ⟨U0, [], [], fun _ => 0, pw0⟩ = some st1) :
    (↑(pairsFlat (if st1.unpaired.length > 0 then
        greedyLoop avoid
          (jsSort (fun a b => (sk a : Int) - sk b) st1.unpaired).length
          (jsSort (fun a b => (sk a : Int) - sk b) st1.unpaired) st1
      else st1).pairings) : Multiset PlayerID) = ↑U0 := by
  obtain ⟨newPairs, hp1, hms1, hnd1⟩ := groupLoop_sound protectTopN sIdx maxB sk
    fuel work ⟨U0, [], [], fun _ => 0, pw0⟩ st1 hU0nd hbnd hbpw hg
  rw [List.nil_append] at hp1
  have hcard := congrArg Multiset.card hms1
  simp only [Multiset.card_add, Multiset.coe_card] at hcard
  have hlen2 : (pairsFlat newPairs).length = 2 * newPairs.length :=
    length_pairsFlat newPairs
  by_cases hpos : st1.unpaired.length > 0
  · rw [if_pos hpos]
    set ids := jsSort (fun a b => (sk a : Int) - sk b) st1.unpaired with hids
    have hperm : List.Perm ids st1.unpaired := jsSort_perm _ _
    obtain ⟨new2, hp2, hm2, _⟩ := greedyLoop_sound avoid ids.length ids st1
      (hperm.symm.nodup hnd1) (Multiset.coe_eq_coe.mpr hperm)
      (by rw [hperm.length_eq]; omega) (le_refl _)
    rw [hp2, hp1, pairsFlat_append, ← Multiset.coe_add, hm2,
      Multiset.coe_eq_coe.mpr hperm, add_comm]
    exact hms1
  · rw [if_neg hpos]
    have hUe : st1.unpaired = [] := List.length_eq_zero.mp (by omega)
    rw [hp1]
    rw [hUe] at hms1
    rw [show ((([] : List PlayerID) : Multiset PlayerID)) = 0 from rfl,
      zero_add] at hms1
    exact hms1

/-- Core soundness of a terminating `generateSwissPairings` run on standings
with pairwise-distinct ids: the returned bye is `byeOf`, and the pairings and
bye together account for every active player exactly once. -/
theorem generateSwissPairings_sound (standings : List StandingRow)
    (history : List Match) (options : SwissPairingOptions) (fuel : Nat)
    (r : SwissPairingResult)
    (hnd : (standings.map (·.playerId)).Nodup)
    (hrun : generateSwissPairings standings history options fuel = some r) :
    r.bye = byeOf standings history ∧
    accountedPlayers r = ↑(playersOf standings) := by
  have hndp : (playersOf standings).Nodup := by
    unfold playersOf activeStandings
    exact ((List.filter_sublist standings).map (·.playerId)).nodup hnd
  unfold generateSwissPairings at hrun
  simp only [] at hrun
  rcases hbye : byeOf standings history with _ | b <;> rw [hbye] at hrun <;>
    simp only [] at hrun
  · -- even pool, no bye
    have hU0nd : (jsSetOfList (playersOf standings)).Nodup :=
      jsSetOfList_nodup _
    rw [jsSetOfList_eq_self hndp] at hrun
    split at hrun
    · exact absurd hrun (by simp)
    · rename_i st1 heq
      injection hrun with hrun
      subst hrun
      refine ⟨rfl, ?_⟩
      unfold accountedPlayers
      simp only [Option.toList]
      rw [Multiset.coe_eq_coe.mpr (pairsFlat_perm (jsSort_perm _ _))]
      rw [swissEngine_pairs_all options.protectTopN (standingsIndexOf standings)
        options.maxBacktrack (seedKey options.eventId) options.avoidRematches
        fuel _ _ _ st1 hndp
        (fun g hg => ((List.filter_sublist _).trans
          (initialWork_ids_sublist standings _ g hg)).nodup hndp)
        (by
          have hdj := initialWork_disjoint standings hndp (playersOf standings)
          rw [List.pairwise_map] at hdj ⊢
          refine hdj.imp ?_
          intro g1 g2 hd x hx1 hx2
          exact hd (List.mem_of_mem_filter hx1) (List.mem_of_mem_filter hx2))
        (byeOf_none_even hbye) heq]
      simp
  · -- odd pool: bye b removed from the pool
    have hbmem : b ∈ playersOf standings := byeOf_mem hbye
    rw [jsSetOfList_eq_self hndp] at hrun
    split at hrun
    · exact absurd hrun (by simp)
    · rename_i st1 heq
      injection hrun with hrun
      subst hrun
      refine ⟨rfl, ?_⟩
      unfold accountedPlayers
      simp only [Option.toList]
      rw [Multiset.coe_eq_coe.mpr (pairsFlat_perm (jsSort_perm _ _))]
      have hUnd : ((playersOf standings).erase b).Nodup := hndp.erase b
      have hUlen : ((playersOf standings).erase b).length % 2 = 0 := by
        rw [List.length_erase_of_mem hbmem]
        have := byeOf_odd_of_some hbye
        have hge : (playersOf standings).length ≥ 1 := by omega
        omega
      rw [swissEngine_pairs_all options.protectTopN (standingsIndexOf standings)
        options.maxBacktrack (seedKey options.eventId) options.avoidRematches
        fuel _ _ _ st1 hUnd
        (fun g hg => ((List.filter_sublist _).trans
          (initialWork_ids_sublist standings _ g hg)).nodup hndp)
        (by
          have hdj := initialWork_disjoint standings hndp
            ((playersOf standings).erase b)
          rw [List.pairwise_map] at hdj ⊢
          refine hdj.imp ?_
          intro g1 g2 hd x hx1 hx2
          exact hd (List.mem_of_mem_filter hx1) (List.mem_of_mem_filter hx2))
        hUlen heq]
      rw [← Multiset.coe_erase,
        show (↑[b] : Multiset PlayerID) = {b} from rfl, add_comm,
        Multiset.singleton_add]
      exact Multiset.cons_erase (by exact_mod_cast hbmem)

/-- The strict (no-rematch) DFS pass never selects a previously-met pair. -/
theorem dfsGo_clean (env : DfsEnv) (hallow : env.allow = false) :
    ∀ (rem startIdx steps : Nat) (used : List PlayerID) (chosen : List Pairing)
      (u' : List PlayerID) (c' : List Pairing) (s' : Nat),
      dfsGo env rem startIdx steps used chosen = (some (u', c'), s') →
      (∀ p ∈ chosen, env.pw p.a p.b = false) →
      ∀ p ∈ c', env.pw p.a p.b = false := by
  intro rem
  induction rem with
  | zero =>
    intro startIdx steps used chosen u' c' s' h hch
    rw [dfsGo] at h
    split at h
    · exact absurd h (by simp)
    · injection h with h1 _
      injection h1 with h1
      injection h1 with _ hc
      exact hc ▸ hch
  | succ rem ih =>
    intro startIdx steps used chosen u' c' s' h hch
    rw [dfsGo] at h
    split at h
    · exact absurd h (by simp)
    · rcases hga : env.ids[startIdx]? with _ | a
      · rw [hga] at h
        injection h with h1 _
        injection h1 with h1
        injection h1 with _ hc
        exact hc ▸ hch
      · rw [hga] at h
        simp only at h
        by_cases hu : a ∈ used
        · rw [if_pos hu] at h
          exact ih (startIdx + 1) (steps + 1) used chosen u' c' s' h hch
        · rw [if_neg hu] at h
          split at h
          · exact absurd h (by simp)
          · obtain ⟨b, hbmem, hP⟩ := tryCands_sound _
              (fun u c r => (∀ p ∈ c, env.pw p.a p.b = false) →
                ∀ p ∈ r.2, env.pw p.a p.b = false)
              (fun s u c r s2 hn hc0 =>
                ih (startIdx + 1) s u c r.1 r.2 s2 (by rw [← hn]) hc0)
              a used chosen _ _ (u', c') s' h
            have hbmem0 : b ∈ (if ((env.ids.drop (startIdx + 1)).filter
                (· ∉ used)).filter (fun b => !env.pw a b) ≠ [] then
                  ((env.ids.drop (startIdx + 1)).filter (· ∉ used)).filter
                    (fun b => !env.pw a b)
                else if env.allow then
                  ((env.ids.drop (startIdx + 1)).filter (· ∉ used)).filter
                    (fun b => env.pw a b)
                else []) :=
              (jsSort_perm _ _).mem_iff.mp hbmem
            have hbclean : env.pw a b = false := by
              by_cases hc1 : ((env.ids.drop (startIdx + 1)).filter
                  (· ∉ used)).filter (fun b => !env.pw a b) ≠ []
              · rw [if_pos hc1] at hbmem0
                have := List.of_mem_filter hbmem0
                simpa using this
              · rw [if_neg hc1, hallow] at hbmem0
                simp at hbmem0
            refine hP ?_
            intro p hp
            rcases List.mem_append.mp hp with hh | hh
            · exact hch p hh
            · rw [List.mem_singleton.mp hh]
              exact hbclean

/-- C3 (amended): the strict pass tries only rematch-free partners; whenever it
pairs the whole bag, `pairBag` returns its matching, so the bag's pairings are
rematch-free.  (Unamended, the claim fails: the strict pass is cut off by the
`maxBacktrack` budget, after which dirty pairs are used even though a clean
perfect matching exists — see the counterexample.) -/
theorem pairBag_strict_clean (ids : List PlayerID) (maxB : Int)
    (pw : PlayerID → PlayerID → Bool) (dfc : PlayerID → Int)
    (sk : PlayerID → Nat)
    (hok : (runPass ids false maxB pw dfc sk).ok = true)
    (hleft : (runPass ids false maxB pw dfc sk).leftovers = []) :
    ∀ p ∈ (pairBag ids maxB pw dfc sk).chosen, pw p.a p.b = false := by
  rw [pairBag_eq, if_pos ⟨hok, hleft⟩]
  unfold runPass
  rcases hd : dfsGo ⟨ids, false, maxB, pw, dfc, sk⟩ ids.length 0 0 [] []
    with ⟨o, s⟩
  cases o with
  | none =>
    simp only []
    intro p hp
    simp at hp
  | some uc =>
    rcases uc with ⟨u2, c2⟩
    simp only []
    exact dfsGo_clean ⟨ids, false, maxB, pw, dfc, sk⟩ rfl ids.length 0 0 [] []
      u2 c2 s hd (by intro p hp; simp at hp)

/-- The sign of the final pairing comparator is the lexicographic order on
(first member's position, second member's position, seed hash of the
concatenated ids). -/
theorem finalCmp_le_iff (pos : PlayerID → Int) (sk : PlayerID → Nat)
    (p q : Pairing) :
    finalCmp pos sk p q ≤ 0 ↔
      (pos p.a < pos q.a ∨ (pos p.a = pos q.a ∧
        (pos p.b < pos q.b ∨ (pos p.b = pos q.b ∧
          (sk (p.a ++ "::" ++ p.b) : Int) ≤ sk (q.a ++ "::" ++ q.b))))) := by
  unfold finalCmp
  simp only []
  by_cases h1 : pos p.a ≠ pos q.a
  · rw [if_pos h1]
    constructor
    · intro h
      exact Or.inl (by omega)
    · rintro (h | ⟨h, _⟩)
      · omega
      · exact absurd h h1
  · have he : pos p.a = pos q.a := not_ne_iff.mp h1
    rw [if_neg h1]
    by_cases h2 : pos p.b ≠ pos q.b
    · rw [if_pos h2]
      constructor
      · intro h
        exact Or.inr ⟨he, Or.inl (by omega)⟩
      · rintro (h | ⟨_, h | ⟨hb, _⟩⟩)
        · omega
        · omega
        · exact absurd hb h2
    · have he2 : pos p.b = pos q.b := not_ne_iff.mp h2
      rw [if_neg h2]
      constructor
      · intro h
        exact Or.inr ⟨he, Or.inr ⟨he2, by omega⟩⟩
      · rintro (h | ⟨_, h | ⟨_, h⟩⟩) <;> omega

theorem finalCmp_le_total (pos : PlayerID → Int) (sk : PlayerID → Nat)
    (p q : Pairing) :
    finalCmp pos sk p q ≤ 0 ∨ finalCmp pos sk q p ≤ 0 := by
  rw [finalCmp_le_iff, finalCmp_le_iff]
  omega

theorem finalCmp_le_trans (pos : PlayerID → Int) (sk : PlayerID → Nat)
    (p q w : Pairing) (h1 : finalCmp pos sk p q ≤ 0)
    (h2 : finalCmp pos sk q w ≤ 0) : finalCmp pos sk p w ≤ 0 := by
  rw [finalCmp_le_iff] at h1 h2 ⊢
  omega

/-- The final `pairings.sort` leaves the list pairwise ordered by the
comparator's sign. -/
theorem jsSort_finalCmp_pairwise (pos : PlayerID → Int) (sk : PlayerID → Nat)
    (l : List Pairing) :
    (jsSort (finalCmp pos sk) l).Pairwise
      (fun p q => finalCmp pos sk p q ≤ 0) := by
  unfold jsSort
  exact pairwise_insertionSort _ (fun _ => True)
    (fun a b _ _ => finalCmp_le_total pos sk a b)
    (fun a b c _ _ _ hab hbc => finalCmp_le_trans pos sk a b c hab hbc)
    l (fun _ _ => trivial)

/-- With a zero DFS budget every `pairBag` call fails at once, so on a
two-player pool the group loop downfloats both players into a fresh terminal
group forever: whatever the fuel, it never finishes. -/
theorem groupLoop_zero_budget_cycle (sIdx : PlayerID → Int)
    (sk : PlayerID → Nat) :
    ∀ (fuel : Nat) (ps rs : List Pairing) (dfc : PlayerID → Int)
      (pw : PlayerID → PlayerID → Bool) (mp : Option ℚ) (g : List PlayerID),
      (g = ["A", "B"] ∨ g = ["B", "A"]) →
      groupLoop 0 sIdx 0 sk fuel [⟨mp, g⟩] ⟨["A", "B"], ps, rs, dfc, pw⟩ =
        none := by
  intro fuel
  induction fuel with
  | zero =>
    intro ps rs dfc pw mp g hg
    rfl
  | succ fuel ih =>
    intro ps rs dfc pw mp g hg
    rcases hg with rfl | rfl
    · exact ih ps rs (bumpDfc (bumpDfc dfc "B") "A") pw none ["B", "A"]
        (Or.inr rfl)
    · exact ih ps rs (bumpDfc (bumpDfc dfc "A") "B") pw none ["A", "B"]
        (Or.inl rfl)

theorem playersOf_nodup {standings : List StandingRow}
    (hnd : (standings.map (·.playerId)).Nodup) :
    (playersOf standings).Nodup := by
  unfold playersOf activeStandings
  exact ((List.filter_sublist standings).map (·.playerId)).nodup hnd

-- ===================== Claim theorems for the Swiss engine =================

/-- C1: for standings whose rows have pairwise-distinct `playerId` values,
every run of `generateSwissPairings` that returns a result accounts for each
active (non-retired) competitor exactly once across the returned pairings and
the optional bye: none is left out, none appears twice. -/
theorem swiss_all_active_accounted (standings : List StandingRow)
    (history : List Match) (options : SwissPairingOptions) (fuel : Nat)
    (r : SwissPairingResult)
    (hnd : (standings.map (·.playerId)).Nodup)
    (hrun : generateSwissPairings standings history options fuel = some r) :
    accountedPlayers r = ↑(playersOf standings) :=
  (generateSwissPairings_sound standings history options fuel r hnd hrun).2

theorem swiss_all_active_accounted_witness :
    accountedPlayers ((generateSwissPairings floatStandings []
        defaultSwissOptions 10).getD emptyResult) =
      ↑(playersOf floatStandings) :=
  swiss_all_active_accounted floatStandings [] defaultSwissOptions 10 _
    (by decide) (by rfl)

/-- C2 (amended): when the standings ids are pairwise distinct, a retired
row's player never appears in the returned pairings (either member) and is
never the bye.  Unamended the claim fails: with a duplicated id the retired
row's player can be returned as the bye — see the counterexample. -/
theorem swiss_retired_excluded (standings : List StandingRow)
    (history : List Match) (options : SwissPairingOptions) (fuel : Nat)
    (r : SwissPairingResult) (row : StandingRow)
    (hnd : (standings.map (·.playerId)).Nodup)
    (hrow : row ∈ standings) (hret : row.retired = true)
    (hrun : generateSwissPairings standings history options fuel = some r) :
    row.playerId ∉ pairsFlat r.pairings ∧ r.bye ≠ some row.playerId := by
  obtain ⟨hb, hacc⟩ := generateSwissPairings_sound standings history options
    fuel r hnd hrun
  have hnotin : row.playerId ∉ playersOf standings :=
    retired_not_mem_playersOf hnd hrow hret
  constructor
  · intro hmem
    apply hnotin
    have hin : row.playerId ∈ accountedPlayers r := by
      unfold accountedPlayers
      exact Multiset.mem_add.mpr (Or.inl (by exact_mod_cast hmem))
    rw [hacc] at hin
    exact_mod_cast hin
  · intro hbye
    apply hnotin
    have hin : row.playerId ∈ accountedPlayers r := by
      unfold accountedPlayers
      refine Multiset.mem_add.mpr (Or.inr ?_)
      rw [hbye]
      simp
    rw [hacc] at hin
    exact_mod_cast hin

theorem swiss_retired_excluded_witness :
    "R" ∉ pairsFlat ((generateSwissPairings retiredMixStandings []
        defaultSwissOptions 10).getD emptyResult).pairings ∧
    ((generateSwissPairings retiredMixStandings [] defaultSwissOptions
        10).getD emptyResult).bye ≠ some "R" :=
  swiss_retired_excluded retiredMixStandings [] defaultSwissOptions 10 _
    (sampleRow "R" 0 true) (by decide)
    (by
      unfold retiredMixStandings
      exact List.mem_cons_of_mem _ (List.mem_cons_of_mem _
        (List.mem_cons_self _ _)))
    (by rfl) (by rfl)

/-- C2 counterexample: with a duplicated id (one retired row, one active row
for the same player), the retired row's player is returned as the bye. -/
theorem swiss_retired_counterexample :
    (sampleRow "P" 0 true) ∈ dupIdStandings ∧
    (sampleRow "P" 0 true).retired = true ∧
    (generateSwissPairings dupIdStandings [] defaultSwissOptions 3).map
      (·.bye) = some (some "P") := by
  refine ⟨List.mem_cons_self _ _, rfl, by rfl⟩

theorem pairBag_strict_clean_witness :
    buildPlayedWith [] "P1" "P2" = false :=
  pairBag_strict_clean ["P1", "P2"] 2000 (buildPlayedWith [])
    (fun _ => 0) (seedKey "rankings-core") (by rfl) (by rfl)
    ⟨"P1", "P2"⟩ (by decide)

/-- C3 counterexample: a rematch-free perfect matching of the score group
exists (`{P1,P3}, {P2,P4}`; only `P3`–`P4` have met), yet with a small
`maxBacktrack` budget the strict search is cut off and the returned pairings
use the `P4`–`P3` rematch. -/
theorem pairBag_rematch_counterexample :
    cleanPerfectMatching (buildPlayedWith rematchHistory)
      (playersOf rematchStandings) [⟨"P1", "P3"⟩, ⟨"P2", "P4"⟩] ∧
    (generateSwissPairings rematchStandings rematchHistory lowBudgetOptions
        10).map (·.rematchesUsed) = some [⟨"P4", "P3"⟩] := by
  exact ⟨by decide, by rfl⟩

/-- C5: on any terminating run over standings with pairwise-distinct ids, the
bye is exactly the claim's recipient — for an odd active pool the
lowest-ranked player without a prior bye, else the absolute lowest-ranked;
none for an even pool — and the recipient is removed from the pairing pool
(appears in no pairing). -/
theorem swiss_bye_selection (standings : List StandingRow)
    (history : List Match) (options : SwissPairingOptions) (fuel : Nat)
    (r : SwissPairingResult)
    (hnd : (standings.map (·.playerId)).Nodup)
    (hrun : generateSwissPairings standings history options fuel = some r) :
    r.bye = claimedByeRecipient standings history ∧
    ∀ b, r.bye = some b → b ∉ pairsFlat r.pairings := by
  obtain ⟨hb, hacc⟩ := generateSwissPairings_sound standings history options
    fuel r hnd hrun
  refine ⟨hb.trans (byeOf_eq_claimed standings history), ?_⟩
  intro b hbye hmem
  have hmem1 : b ∈ (↑(pairsFlat r.pairings) : Multiset PlayerID) := by
    exact_mod_cast hmem
  have hmem2 : b ∈ (↑(r.bye.toList) : Multiset PlayerID) := by
    rw [hbye]
    simp
  have hge : 2 ≤ Multiset.count b (accountedPlayers r) := by
    unfold accountedPlayers
    rw [Multiset.count_add]
    have c1 : 1 ≤ Multiset.count b ↑(pairsFlat r.pairings) :=
      Multiset.one_le_count_iff_mem.mpr hmem1
    have c2 : 1 ≤ Multiset.count b ↑(r.bye.toList) :=
      Multiset.one_le_count_iff_mem.mpr hmem2
    omega
  have hle : Multiset.count b (accountedPlayers r) ≤ 1 := by
    rw [hacc, Multiset.coe_count]
    exact List.nodup_iff_count_le_one.mp (playersOf_nodup hnd) b
  omega

theorem swiss_bye_selection_witness :
    ((generateSwissPairings oddStandings [] defaultSwissOptions 10).getD
        emptyResult).bye = claimedByeRecipient oddStandings [] ∧
    "C" ∉ pairsFlat ((generateSwissPairings oddStandings []
        defaultSwissOptions 10).getD emptyResult).pairings :=
  ⟨(swiss_bye_selection oddStandings [] defaultSwissOptions 10 _ (by decide)
      (by rfl)).1,
    (swiss_bye_selection oddStandings [] defaultSwissOptions 10 _ (by decide)
      (by rfl)).2 "C" (by rfl)⟩

/-- C6: refuted — `generateSwissPairings` does not terminate on every input.
With `maxBacktrack := 0` (any non-negative integer passes the input
validation) and two active players, every `pairBag` call fails on its first
step, so the group loop keeps downfloating both players into a fresh terminal
group: the fueled embedding returns nothing no matter how much fuel it gets. -/
theorem swiss_zero_budget_diverges :
    ∀ fuel : Nat,
      generateSwissPairings twoPlayerStandings [] zeroBudgetOptions fuel =
        none := by
  intro fuel
  unfold generateSwissPairings
  simp only []
  rw [show byeOf twoPlayerStandings [] = none from rfl]
  simp only []
  rw [show jsSetOfList (playersOf twoPlayerStandings) = ["A", "B"] from rfl]
  rw [show initialWork twoPlayerStandings ["A", "B"] =
    [⟨some 0, ["A", "B"]⟩] from rfl]
  rw [show zeroBudgetOptions.protectTopN = 0 from rfl]
  rw [show zeroBudgetOptions.maxBacktrack = 0 from rfl]
  rw [groupLoop_zero_budget_cycle (standingsIndexOf twoPlayerStandings)
    (seedKey zeroBudgetOptions.eventId) fuel [] [] (fun _ => 0)
    (buildPlayedWith []) (some 0) ["A", "B"] (Or.inl rfl)]

/-- C8 (amended): the returned pairings are sorted by the comparator the code
actually uses — the FIRST member's standings position, then the second
member's, then the seed hash of the concatenated ids — which is not the
lower-ranked member's position the claim describes (see the counterexample:
the downfloat pair is keyed by its `a` member, not by its better-placed
member). -/
theorem swiss_pairings_sorted (standings : List StandingRow)
    (history : List Match) (options : SwissPairingOptions) (fuel : Nat)
    (r : SwissPairingResult)
    (hrun : generateSwissPairings standings history options fuel = some r) :
    r.pairings.Pairwise (fun p q =>
      finalCmp (posOf standings) (seedKey options.eventId) p q ≤ 0) := by
  unfold generateSwissPairings at hrun
  simp only [] at hrun
  split at hrun
  · exact absurd hrun (by simp)
  · rename_i st1 heq
    injection hrun with hrun
    subst hrun
    exact jsSort_finalCmp_pairwise _ _ _

theorem swiss_pairings_sorted_witness :
    ((generateSwissPairings floatStandings [] defaultSwissOptions 10).getD
        emptyResult).pairings.Pairwise (fun p q =>
      finalCmp (posOf floatStandings) (seedKey defaultSwissOptions.eventId)
        p q ≤ 0) :=
  swiss_pairings_sorted floatStandings [] defaultSwissOptions 10 _ (by rfl)

/-- C8 counterexample: on the 9/6/6/0 standings the output is
`[{B,C}, {D,A}]`; under the claimed key (the lower-ranked member's position
first) `{D,A}` — containing the top-ranked `A` — would have to come first, so
the claimed order relation does not hold between the two returned pairs. -/
theorem swiss_sort_claim_counterexample :
    (generateSwissPairings floatStandings [] defaultSwissOptions 10).map
        (·.pairings) = some [⟨"B", "C"⟩, ⟨"D", "A"⟩] ∧
    ¬ claimPairLe (posOf floatStandings) (seedKey "rankings-core")
        ⟨"B", "C"⟩ ⟨"D", "A"⟩ := by
  exact ⟨by rfl, by decide⟩

end RankingsCore
